import Mathlib

/-!
# Verification of the n3gb hexagonal spatial index

Shallow embedding of the n3gb grid-indexing engine (point ↔ hex cell
conversion, the 19-byte cell-identifier codec with URL-safe base64 and an
8-bit wrapping checksum, line-coverage sampling, and bulk grid generation
over extents, polygons and multipolygons).

Embedding conventions:
* `f64` values are modelled as `ℚ` with exact arithmetic (the real-number
  semantics of the floating-point source); decimal literals from the source
  are taken at their exact decimal value.
* Rust's `f64::round` (round half away from zero) is `rustRound`.
* Rust's saturating float-to-integer casts `as i64` / `as u64` are
  `toI64sat` / `toU64sat`.
* Rust's `%` on `i64` (remainder with the sign of the dividend) is
  `rustRem2` for the divisor 2 used by the source.
* Byte vectors are `List ℕ` with entries < 256; the base64 string is the
  `List ℕ` of its ASCII codes.
* A Rust `Result` is `RustResult`; an index-out-of-bounds panic is the
  `none` of an outer `Option`.
-/

namespace N3gb

/-- Rust `f64::round`: round half away from zero. -/
def rustRound (q : ℚ) : ℤ :=
  if 0 ≤ q then ⌊q + 1/2⌋ else -⌊-q + 1/2⌋

/-- Rust saturating cast `f64 as i64` applied to an integral value. -/
def toI64sat (n : ℤ) : ℤ :=
  max (-(2 ^ 63)) (min (2 ^ 63 - 1) n)

/-- Rust saturating cast `f64 as u64` applied to an integral value:
negative values clamp to 0, values above `u64::MAX` clamp to it. -/
def toU64sat (n : ℤ) : ℕ :=
  (max 0 (min (2 ^ 64 - 1) n)).toNat

/-- Rust `%` by 2 on `i64`: remainder carrying the sign of the dividend. -/
def rustRem2 (r : ℤ) : ℤ :=
  if 0 ≤ r then r % 2 else -((-r) % 2)

/-! ## Constants (src/core/constants.rs) -/

/-- Cell radius (hexagon circumradius, meters) for each zoom level 0-15. -/
def CELL_RADIUS : List ℚ :=
  [1281249.9438829257, 483045.8762201923, 182509.65769514776,
   68979.50076169973, 26069.67405498836, 9849.595592375015,
   3719.867784388759, 1399.497052515653, 529.4301968468868,
   199.76319313961054, 75.05553499465135, 28.290163190291665,
   10.392304845413264, 4.041451884327381, 1.7320508075688774,
   0.5773502691896258]

/-- Cell width (horizontal pitch, meters) for each zoom level 0-15. -/
def CELL_WIDTHS : List ℚ :=
  [2219190, 836660, 316116, 119476, 45154, 17060, 6443, 2424, 917, 346,
   130, 49, 18, 7, 3, 1]

/-- The integer values of `CELL_WIDTHS` (all published widths are whole
meters, which the identifier-exactness proofs rely on). -/
def cellWidthNat (z : ℕ) : ℕ :=
  [2219190, 836660, 316116, 119476, 45154, 17060, 6443, 2424, 917, 346,
   130, 49, 18, 7, 3, 1].getD z 0

def MAX_ZOOM_LEVEL : ℕ := 15

/-- Grid extents `[min_x, min_y, max_x, max_y]`. -/
def GRID_EXTENTS : List ℚ := [0, 0, 750000, 1350000]

def cellRadius (z : ℕ) : ℚ := CELL_RADIUS.getD z 0

def cellWidth (z : ℕ) : ℚ := CELL_WIDTHS.getD z 0

def gridExtent (i : ℕ) : ℚ := GRID_EXTENTS.getD i 0

/-- Identifier format version (src/core/constants.rs). -/
def IDENTIFIER_VERSION : ℕ := 1

/-- Scale factor preserving three decimal places. -/
def SCALE_FACTOR : ℕ := 1000

/-! ## Error type (src/error.rs), restricted to the variants the core
grid/identifier paths can produce. -/

inductive N3gbError where
  | InvalidIdentifierLength
  | InvalidChecksum
  | UnsupportedVersion (v : ℕ)
  | InvalidZoomLevel (z : ℕ)
  | Base64DecodeError
  deriving DecidableEq, Repr

/-- Rust `Result<α, N3gbError>`. -/
inductive RustResult (α : Type) where
  | ok (a : α)
  | err (e : N3gbError)
  deriving DecidableEq, Repr

/-! ## Coordinate index (src/core/grid.rs) -/

/-- `point_to_hex` (src/core/grid.rs lines 9-26): BNG coordinate to hex
grid row/column at a zoom level. -/
def point_to_hex (x y : ℚ) (z : ℕ) : RustResult (ℤ × ℤ) :=
  if MAX_ZOOM_LEVEL < z then .err (.InvalidZoomLevel z)
  else
    let hex_width := cellWidth z
    let r := cellRadius z
    let dx := hex_width
    let dy := (1.5 : ℚ) * r
    let qx := (x - gridExtent 0) / dx
    let ry := (y - gridExtent 1) / dy
    let row := toI64sat (rustRound ry)
    let col := toI64sat (rustRound (qx - (rustRem2 row : ℚ)))
    .ok (row, col)

/-- `hex_to_point` (src/core/grid.rs lines 31-45): hex grid row/column to
the BNG center point of the cell. -/
def hex_to_point (row col : ℤ) (z : ℕ) : RustResult (ℚ × ℚ) :=
  if MAX_ZOOM_LEVEL < z then .err (.InvalidZoomLevel z)
  else
    let hex_width := cellWidth z
    let r := cellRadius z
    let dx := hex_width
    let dy := (1.5 : ℚ) * r
    .ok (gridExtent 0 + (col : ℚ) * dx + (rustRem2 row : ℚ) * (dx / 2),
         gridExtent 1 + (row : ℚ) * dy)

/-- Modelled from the spec: `point_to_row_col` (src/index/indexing.rs is
absent from the sources; spec section 4.1 gives the identical row/col
formulas that `point_to_hex` implements, and the present caller
src/api/hex_cell.rs uses `point_to_hex` for the same constructors). -/
def point_to_row_col (x y : ℚ) (z : ℕ) : RustResult (ℤ × ℤ) :=
  point_to_hex x y z

/-- Modelled from the spec: `row_col_to_center` (src/index/indexing.rs is
absent from the sources; spec section 4.1 gives the identical center
formula that `hex_to_point` implements). -/
def row_col_to_center (row col : ℤ) (z : ℕ) : RustResult (ℚ × ℚ) :=
  hex_to_point row col z

/-! ## URL-safe base64, no padding (the `base64` crate engine
`URL_SAFE_NO_PAD` used by src/index/identifier.rs).  Characters are their
ASCII codes.  Decoding is strict: unknown characters, a leftover length of
1, and non-zero trailing bits in a final partial chunk are all rejected,
matching the crate's default configuration. -/

/-- The URL-safe alphabet: sextet value to ASCII code. -/
def sextetToCode (v : ℕ) : ℕ :=
  if v < 26 then 65 + v
  else if v < 52 then 97 + (v - 26)
  else if v < 62 then 48 + (v - 52)
  else if v = 62 then 45
  else 95

/-- Inverse alphabet lookup: ASCII code to sextet value, `none` for a
character outside the URL-safe alphabet. -/
def codeToSextet (c : ℕ) : Option ℕ :=
  if 65 ≤ c ∧ c ≤ 90 then some (c - 65)
  else if 97 ≤ c ∧ c ≤ 122 then some (26 + (c - 97))
  else if 48 ≤ c ∧ c ≤ 57 then some (52 + (c - 48))
  else if c = 45 then some 62
  else if c = 95 then some 63
  else none

/-- Base64 encode (URL-safe, no padding): 3 bytes to 4 characters, with a
2- or 3-character tail for 1 or 2 leftover bytes. -/
def b64encode : List ℕ → List ℕ
  | [] => []
  | [a] => [sextetToCode (a / 4), sextetToCode (a % 4 * 16)]
  | [a, b] =>
    [sextetToCode (a / 4), sextetToCode (a % 4 * 16 + b / 16),
     sextetToCode (b % 16 * 4)]
  | a :: b :: c :: rest =>
    sextetToCode (a / 4) :: sextetToCode (a % 4 * 16 + b / 16) ::
    sextetToCode (b % 16 * 4 + c / 64) :: sextetToCode (c % 64) ::
    b64encode rest

/-- Base64 decode (URL-safe, no padding, strict).  `none` models the
crate's `DecodeError`. -/
def b64decode : List ℕ → Option (List ℕ)
  | [] => some []
  | [_] => none
  | [c1, c2] =>
    match codeToSextet c1, codeToSextet c2 with
    | some s1, some s2 =>
      if s2 % 16 = 0 then some [s1 * 4 + s2 / 16] else none
    | _, _ => none
  | [c1, c2, c3] =>
    match codeToSextet c1, codeToSextet c2, codeToSextet c3 with
    | some s1, some s2, some s3 =>
      if s3 % 4 = 0 then some [s1 * 4 + s2 / 16, s2 % 16 * 16 + s3 / 4]
      else none
    | _, _, _ => none
  | c1 :: c2 :: c3 :: c4 :: rest =>
    match codeToSextet c1, codeToSextet c2, codeToSextet c3,
          codeToSextet c4 with
    | some s1, some s2, some s3, some s4 =>
      match b64decode rest with
      | some bs =>
        some ((s1 * 4 + s2 / 16) :: (s2 % 16 * 16 + s3 / 4) ::
              (s3 % 4 * 64 + s4) :: bs)
      | none => none
    | _, _, _, _ => none

/-! ## Cell identifier codec (src/index/identifier.rs; src/util/identifier.rs
is a verbatim duplicate of the same two functions). -/

/-- Big-endian `u64::to_be_bytes`. -/
def u64BeBytes (n : ℕ) : List ℕ :=
  [n / 2 ^ 56 % 256, n / 2 ^ 48 % 256, n / 2 ^ 40 % 256, n / 2 ^ 32 % 256,
   n / 2 ^ 24 % 256, n / 2 ^ 16 % 256, n / 2 ^ 8 % 256, n % 256]

/-- `u64::from_be_bytes` on an 8-byte big-endian slice. -/
def beToNat (l : List ℕ) : ℕ :=
  l.foldl (fun a b => a * 256 + b) 0

/-- The wrapping 8-bit sum `fold(0u8, wrapping_add)` over a byte list. -/
def wrapSum (l : List ℕ) : ℕ :=
  l.foldl (fun a b => (a + b) % 256) 0

/-- The 18 data bytes of an identifier:
`[version][eastingScaled:8 BE][northingScaled:8 BE][zoom]` with each axis
scaled by `SCALE_FACTOR`, rounded, and cast `as u64`. -/
def rawIdentifierBytes (easting northing : ℚ) (zoom : ℕ) : List ℕ :=
  IDENTIFIER_VERSION ::
    (u64BeBytes (toU64sat (rustRound (easting * (SCALE_FACTOR : ℚ)))) ++
     u64BeBytes (toU64sat (rustRound (northing * (SCALE_FACTOR : ℚ)))) ++
     [zoom])

/-- `generate_hex_identifier` (src/index/identifier.rs lines 38-52):
scale-and-round both axes, pack 18 bytes, append the wrapping checksum,
base64-encode. -/
def generate_hex_identifier (easting northing : ℚ) (zoom : ℕ) : List ℕ :=
  let data := rawIdentifierBytes easting northing zoom
  b64encode (data ++ [wrapSum data])

/-- `generate_identifier` (src/util/identifier.rs lines 6-20): identical
byte-for-byte to `generate_hex_identifier`. -/
def generate_identifier (easting northing : ℚ) (zoom : ℕ) : List ℕ :=
  generate_hex_identifier easting northing zoom

/-- `decode_hex_identifier` (src/index/identifier.rs lines 92-127): base64
decode, length check, checksum check, version check, then unscale both
axes. -/
def decode_hex_identifier (s : List ℕ) : RustResult (ℕ × ℚ × ℚ × ℕ) :=
  match b64decode s with
  | none => .err .Base64DecodeError
  | some binary_data =>
    if binary_data.length ≠ 19 then .err .InvalidIdentifierLength
    else
      let data := binary_data.take 18
      let checksum := binary_data.getD 18 0
      if wrapSum data ≠ checksum then .err .InvalidChecksum
      else
        let version := data.getD 0 0
        let easting_int := beToNat ((data.drop 1).take 8)
        let northing_int := beToNat ((data.drop 9).take 8)
        let zoom := data.getD 17 0
        if version ≠ IDENTIFIER_VERSION then .err (.UnsupportedVersion version)
        else
          .ok (version, (easting_int : ℚ) / (SCALE_FACTOR : ℚ),
               (northing_int : ℚ) / (SCALE_FACTOR : ℚ), zoom)

/-! ## HexCell (src/api/hex_cell.rs; src/cell.rs duplicates the same
constructors through the spec-modelled `point_to_row_col` /
`row_col_to_center` aliases). -/

structure HexCell where
  id : List ℕ
  center : ℚ × ℚ
  zoom_level : ℕ
  row : ℤ
  col : ℤ
  deriving DecidableEq, Repr

namespace HexCell

/-- `HexCell::from_bng` (src/api/hex_cell.rs lines 164-176): index the
coordinate, snap to the cell center, encode the identifier. -/
def from_bng (x y : ℚ) (zoom : ℕ) : RustResult HexCell :=
  match point_to_hex x y zoom with
  | .err e => .err e
  | .ok (row, col) =>
    match hex_to_point row col zoom with
    | .err e => .err e
    | .ok center =>
      .ok ⟨generate_identifier center.1 center.2 zoom, center, zoom, row, col⟩

/-- `HexCell::from_hex_id` (src/api/hex_cell.rs lines 75-86): decode the
identifier, re-derive the row/column from the decoded center. -/
def from_hex_id (id : List ℕ) : RustResult HexCell :=
  match decode_hex_identifier id with
  | .err e => .err e
  | .ok (_, easting, northing, zoom) =>
    match point_to_hex easting northing zoom with
    | .err e => .err e
    | .ok (row, col) => .ok ⟨id, (easting, northing), zoom, row, col⟩

end HexCell

/-! ## Line coverage sampling (src/api/hex_cell.rs lines 91-138). -/

/-- `line.0.windows(2)` as consecutive vertex pairs. -/
def lineWindows (line : List (ℚ × ℚ)) : List ((ℚ × ℚ) × (ℚ × ℚ)) :=
  line.zip line.tail

/-- Least `n : ℕ` with `q ≤ n ^ 2`; equivalently `⌈√q⌉` for `q ≥ 0`.
Used to express `(segment_length / step_size).ceil()` without leaving ℚ:
`ceil(√d2 / s) = ceilSqrt (d2 / s^2)` for `s > 0`. -/
def ceilSqrt (q : ℚ) : ℕ :=
  if q ≤ 0 then 0
  else
    let s0 := Nat.sqrt ⌈q⌉.toNat
    if q ≤ (s0 : ℚ) ^ 2 then s0 else s0 + 1

/-- `steps = (segment_length / step_size).ceil() as usize` for the segment
from `w.1` to `w.2`, where `segment_length = sqrt(dx*dx + dy*dy)`. -/
def segmentSteps (w : (ℚ × ℚ) × (ℚ × ℚ)) (stepSize : ℚ) : ℕ :=
  let dx := w.2.1 - w.1.1
  let dy := w.2.2 - w.1.2
  ceilSqrt ((dx * dx + dy * dy) / stepSize ^ 2)

/-- The interpolated point at `t = i / steps` (`t = 0` when `steps = 0`)
along the segment `w`. -/
def samplePoint (w : (ℚ × ℚ) × (ℚ × ℚ)) (steps i : ℕ) : ℚ × ℚ :=
  let t : ℚ := if steps = 0 then 0 else (i : ℚ) / (steps : ℚ)
  (w.1.1 + t * (w.2.1 - w.1.1), w.1.2 + t * (w.2.2 - w.1.2))

/-- The inner `for i in 0..=steps` loop body of `from_line_string_bng`,
applied to the flattened list of sample points of one segment: index each
sample, and when its `(row, col)` is not yet in `seen`, snap the center,
encode the identifier and append the synthesized cell. -/
def lineCellLoop (zoom : ℕ) :
    List (ℚ × ℚ) → List (ℤ × ℤ) → List HexCell →
    RustResult (List (ℤ × ℤ) × List HexCell)
  | [], seen, cells => .ok (seen, cells)
  | p :: ps, seen, cells =>
    match point_to_hex p.1 p.2 zoom with
    | .err e => .err e
    | .ok rc =>
      if rc ∈ seen then lineCellLoop zoom ps seen cells
      else
        match hex_to_point rc.1 rc.2 zoom with
        | .err e => .err e
        | .ok center =>
          lineCellLoop zoom ps (rc :: seen)
            (cells ++ [⟨generate_identifier center.1 center.2 zoom, center,
                        zoom, rc.1, rc.2⟩])

/-- The outer `for window in line.0.windows(2)` loop of
`from_line_string_bng`, threading the `seen` set and output vector. -/
def windowLoop (zoom : ℕ) (stepSize : ℚ) :
    List ((ℚ × ℚ) × (ℚ × ℚ)) → List (ℤ × ℤ) → List HexCell →
    RustResult (List (ℤ × ℤ) × List HexCell)
  | [], seen, cells => .ok (seen, cells)
  | w :: ws, seen, cells =>
    let steps := segmentSteps w stepSize
    match lineCellLoop zoom
        ((List.range (steps + 1)).map (samplePoint w steps)) seen cells with
    | .err e => .err e
    | .ok (seen2, cells2) => windowLoop zoom stepSize ws seen2 cells2

/-- `HexCell::from_line_string_bng` (src/api/hex_cell.rs lines 91-138).
The function's first statement is `CELL_RADIUS[zoom as usize]`, an
unguarded array index: for `zoom > 15` the real code panics
(index out of bounds), modelled here as the outer `none`. -/
def from_line_string_bng (line : List (ℚ × ℚ)) (zoom : ℕ) :
    Option (RustResult (List HexCell)) :=
  if MAX_ZOOM_LEVEL < zoom then none
  else
    let cell_radius := cellRadius zoom
    let step_size := cell_radius * (0.5 : ℚ)
    match windowLoop zoom step_size (lineWindows line) [] [] with
    | .err e => some (.err e)
    | .ok (_, cells) => some (.ok cells)

/-! ## Grid generation (src/api/hex_grid.rs). -/

/-- Integer range `a..=b` as a list (empty when `b < a`). -/
def intRangeIncl (a b : ℤ) : List ℤ :=
  (List.range (b + 1 - a).toNat).map (fun i => a + (i : ℤ))

/-- `generate_cells_for_extent` (src/api/hex_grid.rs lines 642-690): index
the four bounding-box corners, enumerate the row/column span row-major,
snap each candidate to its center, drop candidates whose center is below
the grid origin on either axis, and synthesize the remaining cells.
`zoom > 15` short-circuits to the empty vector.  The rayon
`into_par_iter().collect()` preserves the enumeration order of the indexed
candidate vector, so the pipeline is modelled sequentially. -/
def generate_cells_for_extent (min_x min_y max_x max_y : ℚ) (zoom : ℕ) :
    List HexCell :=
  if MAX_ZOOM_LEVEL < zoom then []
  else
    match point_to_hex min_x min_y zoom, point_to_hex max_x min_y zoom,
          point_to_hex max_x max_y zoom, point_to_hex min_x max_y zoom with
    | .ok ll, .ok lr, .ok ur, .ok ul =>
      let min_row := min (min (min ll.1 lr.1) ur.1) ul.1
      let max_row := max (max (max ll.1 lr.1) ur.1) ul.1
      let min_col := min (min (min ll.2 lr.2) ur.2) ul.2
      let max_col := max (max (max ll.2 lr.2) ur.2) ul.2
      ((intRangeIncl min_row max_row).flatMap (fun row =>
          (intRangeIncl min_col max_col).map (fun col => (row, col)))).filterMap
        (fun rc =>
          match hex_to_point rc.1 rc.2 zoom with
          | .err _ => none
          | .ok center =>
            if center.1 < gridExtent 0 ∨ center.2 < gridExtent 1 then none
            else
              some ⟨generate_identifier center.1 center.2 zoom, center, zoom,
                    rc.1, rc.2⟩)
    | _, _, _, _ => []

/-- A polygon: exterior ring plus interior rings, each a coordinate list. -/
structure Polygon where
  exterior : List (ℚ × ℚ)
  interiors : List (List (ℚ × ℚ))
  deriving DecidableEq, Repr

/-- `geo::BoundingRect` for a polygon: the min/max over all coordinates,
`none` when the polygon has no coordinates. -/
def boundingRect (p : Polygon) : Option (ℚ × ℚ × ℚ × ℚ) :=
  match p.exterior ++ p.interiors.flatten with
  | [] => none
  | c :: cs =>
    some (cs.foldl (fun acc q =>
      (min acc.1 q.1, min acc.2.1 q.2, max acc.2.2.1 q.1, max acc.2.2.2 q.2))
      (c.1, c.2, c.1, c.2))

structure HexGrid where
  cells : List HexCell
  zoom_level : ℕ
  deriving DecidableEq, Repr

/-- Keep the first occurrence of each key, skipping keys already in
`seen`; this is the list-level meaning of the source's
`filter(|x| seen.insert(key(x)))` idiom. -/
def keepFirstBy {α β : Type} (key : α → β) [DecidableEq β]
    (seen : List β) : List α → List α
  | [] => []
  | x :: xs =>
    if key x ∈ seen then keepFirstBy key seen xs
    else x :: keepFirstBy key (key x :: seen) xs

namespace HexGrid

/-- `HexGrid::from_bng_polygon` (src/api/hex_grid.rs lines 150-175):
candidate cells for the polygon's bounding box, filtered to the cells
whose hexagon intersects the polygon.  The geometric intersection test
(`geo::Intersects` over the cell's hexagon, built with irrational
trigonometry) is an external collaborator and is abstracted as the
`keep` parameter. -/
def from_bng_polygon (keep : HexCell → Polygon → Bool) (polygon : Polygon)
    (zoom_level : ℕ) : HexGrid :=
  match boundingRect polygon with
  | none => ⟨[], zoom_level⟩
  | some (mnx, mny, mxx, mxy) =>
    ⟨(generate_cells_for_extent mnx mny mxx mxy zoom_level).filter
        (fun cell => keep cell polygon), zoom_level⟩

/-- `HexGrid::from_bng_multipolygon` (src/api/hex_grid.rs lines 242-256):
run `from_bng_polygon` per sub-polygon, concatenate (the rayon gather
preserves sub-polygon order), then dedupe by identifier keeping the first
occurrence (`filter(|cell| seen_ids.insert(cell.id.clone()))`). -/
def from_bng_multipolygon (keep : HexCell → Polygon → Bool)
    (multipolygon : List Polygon) (zoom_level : ℕ) : HexGrid :=
  ⟨keepFirstBy HexCell.id []
      (multipolygon.flatMap
        (fun polygon => (from_bng_polygon keep polygon zoom_level).cells)),
   zoom_level⟩

end HexGrid

/-! ## Spec-worded definitions

These follow the specification's words (spec sections 4.1, 4.5, 4.6) and
are compared with the source-translated functions above by the refinement
theorems; they are deliberately written from the spec text, not from the
code. -/

/-- Spec 4.1: `row = round((y − originY)/(1.5·radius[zoom]))`. -/
def specRow (y : ℚ) (z : ℕ) : ℤ :=
  rustRound ((y - gridExtent 1) / ((1.5 : ℚ) * cellRadius z))

/-- Spec 4.1: `col = round((x − originX)/width[zoom] − (row mod 2))`,
with `row mod 2` the dividend-signed remainder the layout uses. -/
def specCol (x y : ℚ) (z : ℕ) : ℤ :=
  rustRound ((x - gridExtent 0) / cellWidth z - (rustRem2 (specRow y z) : ℚ))

/-- Spec 4.1: `x = originX + col·width[zoom] + (row mod 2)·(width[zoom]/2)`,
`y = originY + row·1.5·radius[zoom]`. -/
def specCenter (row col : ℤ) (z : ℕ) : ℚ × ℚ :=
  (gridExtent 0 + (col : ℚ) * cellWidth z +
     (rustRem2 row : ℚ) * (cellWidth z / 2),
   gridExtent 1 + (row : ℚ) * ((1.5 : ℚ) * cellRadius z))

/-- The spec's `pointToCell` as a total function on the validated-zoom
branch (the spec-worded generators below only apply it under their own
zoom guard, where `point_to_hex` cannot fail). -/
def pointToCellD (p : ℚ × ℚ) (z : ℕ) : ℤ × ℤ :=
  match point_to_hex p.1 p.2 z with
  | .ok rc => rc
  | .err _ => (0, 0)

/-- The spec's `cellToPoint` as a total function on the validated-zoom
branch. -/
def cellToPointD (rc : ℤ × ℤ) (z : ℕ) : ℚ × ℚ :=
  match hex_to_point rc.1 rc.2 z with
  | .ok c => c
  | .err _ => (0, 0)

/-- The cell synthesized for a grid address: center via `cellToPoint`,
identifier via the encoder. -/
def specSynthCell (z : ℕ) (rc : ℤ × ℤ) : HexCell :=
  ⟨generate_identifier (cellToPointD rc z).1 (cellToPointD rc z).2 z,
   cellToPointD rc z, z, rc.1, rc.2⟩

/-- Spec 4.6, `fromExtent`: index the four bbox corners, take the min/max
row and column span, enumerate the rectangle row-major, compute each
candidate's center via `cellToPoint`, drop centers below the origin on
either axis, and synthesize the rest.  Invalid zoom gives the empty
grid. -/
def specCellsForExtent (min_x min_y max_x max_y : ℚ) (z : ℕ) : List HexCell :=
  if 15 < z then []
  else
    let ll := pointToCellD (min_x, min_y) z
    let lr := pointToCellD (max_x, min_y) z
    let ur := pointToCellD (max_x, max_y) z
    let ul := pointToCellD (min_x, max_y) z
    ((intRangeIncl (min (min (min ll.1 lr.1) ur.1) ul.1)
        (max (max (max ll.1 lr.1) ur.1) ul.1)).flatMap (fun row =>
      (intRangeIncl (min (min (min ll.2 lr.2) ur.2) ul.2)
        (max (max (max ll.2 lr.2) ur.2) ul.2)).map (fun col => (row, col))))
      |>.filterMap (fun rc =>
        if (cellToPointD rc z).1 < 0 ∨ (cellToPointD rc z).2 < 0 then none
        else some (specSynthCell z rc))

/-- Spec 4.5: the flattened sample sequence of a line — for each
consecutive vertex pair, `steps = ceil(segmentLength/stepSize)` with
`stepSize = radius[zoom]×0.5`, and samples at `t = i/steps`, `i ∈ 0..=steps`
(`t = 0` when `steps = 0`). -/
def specLineSamples (line : List (ℚ × ℚ)) (z : ℕ) : List (ℚ × ℚ) :=
  (lineWindows line).flatMap (fun w =>
    let steps := segmentSteps w (cellRadius z * (0.5 : ℚ))
    (List.range (steps + 1)).map (samplePoint w steps))

/-- Spec 4.5: index every sample, keep the first occurrence of each
`(row, col)`, synthesize one cell per kept address in order. -/
def specLineCells (line : List (ℚ × ℚ)) (z : ℕ) : List HexCell :=
  ((keepFirstBy (fun rc => rc) []
      ((specLineSamples line z).map (fun p => pointToCellD p z))).map
    (specSynthCell z))

/-! ## Lemmas about the rounding and cast primitives -/

theorem rustRound_of_nonneg {q : ℚ} {n : ℤ} (h0 : 0 ≤ q)
    (h1 : (n : ℚ) ≤ q + 1/2) (h2 : q + 1/2 < (n : ℚ) + 1) :
    rustRound q = n := by
  rw [rustRound, if_pos h0, Int.floor_eq_iff]
  exact ⟨h1, h2⟩

theorem rustRound_of_neg {q : ℚ} {n : ℤ} (h0 : ¬ 0 ≤ q)
    (h1 : (n : ℚ) ≤ -q + 1/2) (h2 : -q + 1/2 < (n : ℚ) + 1) :
    rustRound q = -n := by
  rw [rustRound, if_neg h0, neg_inj, Int.floor_eq_iff]
  exact ⟨h1, h2⟩

theorem abs_rustRound_sub_le (q : ℚ) : |(rustRound q : ℚ) - q| ≤ 1/2 := by
  rw [rustRound]
  split
  · have h1 := Int.floor_le (q + 1/2)
    have h2 := Int.lt_floor_add_one (q + 1/2)
    rw [abs_le]
    constructor <;> linarith
  · have h1 := Int.floor_le (-q + 1/2)
    have h2 := Int.lt_floor_add_one (-q + 1/2)
    rw [abs_le]
    push_cast
    constructor <;> linarith

theorem rustRound_intCast (n : ℤ) : rustRound (n : ℚ) = n := by
  rcases le_or_lt 0 (n : ℚ) with h | h
  · exact rustRound_of_nonneg h (by norm_num) (by norm_num)
  · have : rustRound (n : ℚ) = -(-n) :=
      rustRound_of_neg (not_le.2 h) (by push_cast; norm_num)
        (by push_cast; norm_num)
    simpa using this

theorem rustRound_int_add_small (n : ℤ) {d : ℚ} (h : |d| < 1/2) :
    rustRound ((n : ℚ) + d) = n := by
  rw [abs_lt] at h
  rcases le_or_lt 0 ((n : ℚ) + d) with h0 | h0
  · exact rustRound_of_nonneg h0 (by linarith) (by linarith)
  · have hn : rustRound ((n : ℚ) + d) = -(-n) :=
      rustRound_of_neg (not_le.2 h0) (by push_cast; linarith)
        (by push_cast; linarith)
    simpa using hn

theorem rustRound_nonneg {q : ℚ} (h : 0 ≤ q) : 0 ≤ rustRound q := by
  rw [rustRound, if_pos h]
  positivity

theorem rustRound_int_sub_half (c : ℤ) :
    rustRound ((c : ℚ) - 1/2) = if 1 ≤ c then c else c - 1 := by
  split
  · next h =>
    have : (1 : ℚ) ≤ (c : ℚ) := by exact_mod_cast h
    exact rustRound_of_nonneg (by linarith) (by linarith) (by linarith)
  · next h =>
    have : (c : ℚ) ≤ 0 := by exact_mod_cast Int.lt_add_one_iff.mp (by omega)
    have hr : rustRound ((c : ℚ) - 1/2) = -(-(c - 1)) := by
      refine rustRound_of_neg (by intro hc; linarith) ?_ ?_ <;>
        push_cast <;> linarith
    simpa using hr

theorem toI64sat_eq_self {n : ℤ} (h : |n| ≤ 2 ^ 63 - 1) : toI64sat n = n := by
  rw [abs_le] at h
  rw [toI64sat, min_eq_right (by omega), max_eq_right (by omega)]

theorem toU64sat_eq {n : ℤ} (h0 : 0 ≤ n) (h1 : n ≤ 2 ^ 64 - 1) :
    toU64sat n = n.toNat := by
  rw [toU64sat, min_eq_right h1, max_eq_right h0]

theorem toU64sat_of_nonpos {n : ℤ} (h : n ≤ 0) : toU64sat n = 0 := by
  have hmin : min (2 ^ 64 - 1 : ℤ) n ≤ 0 := le_trans (min_le_right _ _) h
  rw [toU64sat, max_eq_left hmin]
  rfl

theorem rustRem2_of_nonneg {r : ℤ} (h : 0 ≤ r) : rustRem2 r = r % 2 := by
  rw [rustRem2, if_pos h]

theorem rustRem2_mem {r : ℤ} (h : 0 ≤ r) : rustRem2 r = 0 ∨ rustRem2 r = 1 := by
  rw [rustRem2_of_nonneg h]
  omega

/-! ## Lemmas about bytes and the checksum -/

theorem wrapSum_foldl_eq (a : ℕ) (l : List ℕ) :
    l.foldl (fun x b => (x + b) % 256) (a % 256) = (a + l.sum) % 256 := by
  induction l generalizing a with
  | nil => simp
  | cons b t ih =>
    simp only [List.foldl_cons, List.sum_cons]
    rw [Nat.mod_add_mod, ih (a + b)]
    ring_nf

theorem wrapSum_eq (l : List ℕ) : wrapSum l = l.sum % 256 := by
  have := wrapSum_foldl_eq 0 l
  simpa [wrapSum] using this

theorem beToNat_u64BeBytes {n : ℕ} (h : n < 2 ^ 64) :
    beToNat (u64BeBytes n) = n := by
  simp only [beToNat, u64BeBytes, List.foldl_cons, List.foldl_nil]
  omega

theorem u64BeBytes_lt (n : ℕ) : ∀ b ∈ u64BeBytes n, b < 256 := by
  intro b hb
  simp only [u64BeBytes, List.mem_cons, List.not_mem_nil, or_false] at hb
  rcases hb with h | h | h | h | h | h | h | h <;> subst h <;> omega

theorem rustRound_nonpos {q : ℚ} (h : q < 0) : rustRound q ≤ 0 := by
  rw [rustRound, if_neg (not_le.2 h)]
  have h2 : (0 : ℤ) ≤ ⌊-q + 1/2⌋ := by
    rw [Int.floor_nonneg]
    linarith
  omega

theorem toU64sat_lt (n : ℤ) : toU64sat n < 2 ^ 64 := by
  rw [toU64sat]
  omega

/-! ## Base64 round-trip -/

theorem codeToSextet_sextetToCode {v : ℕ} (h : v < 64) :
    codeToSextet (sextetToCode v) = some v := by
  interval_cases v <;> rfl

theorem b64decode_b64encode :
    ∀ bs : List ℕ, (∀ x ∈ bs, x < 256) → b64decode (b64encode bs) = some bs
  | [], _ => rfl
  | [a], h => by
    have ha : a < 256 := h a (by simp)
    rw [b64encode, b64decode,
        codeToSextet_sextetToCode (by omega : a / 4 < 64),
        codeToSextet_sextetToCode (by omega : a % 4 * 16 < 64)]
    simp [Nat.mul_mod_left]
    omega
  | [a, b], h => by
    have ha : a < 256 := h a (by simp)
    have hb : b < 256 := h b (by simp)
    rw [b64encode, b64decode,
        codeToSextet_sextetToCode (by omega : a / 4 < 64),
        codeToSextet_sextetToCode (by omega : a % 4 * 16 + b / 16 < 64),
        codeToSextet_sextetToCode (by omega : b % 16 * 4 < 64)]
    simp [Nat.mul_mod_left]
    omega
  | a :: b :: c :: rest, h => by
    have ha : a < 256 := h a (by simp)
    have hb : b < 256 := h b (by simp)
    have hc : c < 256 := h c (by simp)
    have hrest : ∀ x ∈ rest, x < 256 := fun x hx => h x (by simp [hx])
    have ih := b64decode_b64encode rest hrest
    rw [b64encode, b64decode,
        codeToSextet_sextetToCode (by omega : a / 4 < 64),
        codeToSextet_sextetToCode (by omega : a % 4 * 16 + b / 16 < 64),
        codeToSextet_sextetToCode (by omega : b % 16 * 4 + c / 64 < 64),
        codeToSextet_sextetToCode (by omega : c % 64 < 64), ih]
    simp only [Option.some.injEq, List.cons.injEq]
    exact ⟨by omega, by omega, by omega, trivial⟩
theorem zoom_facts (z : ℕ) (hz : z ≤ 15) :
    cellWidth z = (cellWidthNat z : ℚ) ∧ 1 ≤ cellWidthNat z ∧
    (0 : ℚ) < cellRadius z ∧ (1/1000 : ℚ) < (1.5 : ℚ) * cellRadius z ∧
    (1.5 : ℚ) * cellRadius z / 2 ≤ cellWidth z := by
  interval_cases z <;>
    norm_num [cellWidth, CELL_WIDTHS, cellWidthNat, cellRadius, CELL_RADIUS]

theorem decode_generate (e n : ℚ) (z : ℕ) (hz : z < 256) :
    decode_hex_identifier (generate_hex_identifier e n z) =
      .ok (1, ((toU64sat (rustRound (e * 1000)) : ℕ) : ℚ) / 1000,
           ((toU64sat (rustRound (n * 1000)) : ℕ) : ℚ) / 1000, z) := by
  have hws : wrapSum (rawIdentifierBytes e n z) < 256 := by
    rw [wrapSum_eq]; omega
  have hbytes : ∀ x ∈ rawIdentifierBytes e n z ++
      [wrapSum (rawIdentifierBytes e n z)], x < 256 := by
    intro x hx
    rw [List.mem_append] at hx
    rcases hx with hx | hx
    · simp only [rawIdentifierBytes, u64BeBytes, IDENTIFIER_VERSION,
        List.mem_cons, List.mem_append, List.not_mem_nil, or_false] at hx
      rcases hx with h | h | h | h | h | h | h | h | h | h | h | h | h |
        h | h | h | h | h <;> omega
    · simp only [List.mem_singleton] at hx
      omega
  have hbe : ∀ m : ℕ, m < 2 ^ 64 →
      beToNat [m / 72057594037927936 % 256, m / 281474976710656 % 256,
        m / 1099511627776 % 256, m / 4294967296 % 256, m / 16777216 % 256,
        m / 65536 % 256, m / 256 % 256, m % 256] = m :=
    fun m hm => beToNat_u64BeBytes hm
  rw [generate_hex_identifier, decode_hex_identifier.eq_def,
      b64decode_b64encode _ hbytes]
  simp only [rawIdentifierBytes, u64BeBytes, IDENTIFIER_VERSION,
    List.cons_append, List.nil_append, List.length_cons, List.length_nil,
    SCALE_FACTOR]
  norm_num
  rw [hbe _ (toU64sat_lt _), hbe _ (toU64sat_lt _)]
  exact ⟨rfl, rfl⟩


/-! ## Claim theorems -/

/-- C1: for every zoom level in 0..=15 and every coordinate inside the
grid extent, decoding the generated identifier succeeds and returns
version 1, the zoom level exactly, and easting/northing each within 0.001
of the inputs. -/
theorem C1_identifier_roundtrip (x y : ℚ) (z : ℕ) (hz : z ≤ 15)
    (hx0 : 0 ≤ x) (hx1 : x ≤ 750000) (hy0 : 0 ≤ y) (hy1 : y ≤ 1350000) :
    ∃ e nn : ℚ,
      decode_hex_identifier (generate_hex_identifier x y z) =
        .ok (1, e, nn, z) ∧ |e - x| ≤ 1/1000 ∧ |nn - y| ≤ 1/1000 := by
  have h256 : z < 256 := by omega
  refine ⟨_, _, decode_generate x y z h256, ?_, ?_⟩
  · have hr := abs_rustRound_sub_le (x * 1000)
    rw [abs_le] at hr
    have h0 : (0 : ℤ) ≤ rustRound (x * 1000) :=
      rustRound_nonneg (by positivity)
    have h1 : rustRound (x * 1000) ≤ 2 ^ 64 - 1 := by
      have hq : ((rustRound (x * 1000) : ℤ) : ℚ) < 2 ^ 64 - 1 := by
        have : x * 1000 ≤ 750000000 := by linarith
        have h64 : (750000001 : ℚ) < 2 ^ 64 - 1 := by norm_num
        linarith
      exact_mod_cast hq.le
    rw [toU64sat_eq h0 h1]
    rw [abs_le]
    have hcast : (((rustRound (x * 1000)).toNat : ℕ) : ℚ) =
        ((rustRound (x * 1000) : ℤ) : ℚ) := by
      exact_mod_cast Int.toNat_of_nonneg h0
    rw [hcast]
    constructor <;> [linarith; linarith]
  · have hr := abs_rustRound_sub_le (y * 1000)
    rw [abs_le] at hr
    have h0 : (0 : ℤ) ≤ rustRound (y * 1000) :=
      rustRound_nonneg (by positivity)
    have h1 : rustRound (y * 1000) ≤ 2 ^ 64 - 1 := by
      have hq : ((rustRound (y * 1000) : ℤ) : ℚ) < 2 ^ 64 - 1 := by
        have : y * 1000 ≤ 1350000000 := by linarith
        have h64 : (1350000001 : ℚ) < 2 ^ 64 - 1 := by norm_num
        linarith
      exact_mod_cast hq.le
    rw [toU64sat_eq h0 h1]
    rw [abs_le]
    have hcast : (((rustRound (y * 1000)).toNat : ℕ) : ℚ) =
        ((rustRound (y * 1000) : ℤ) : ℚ) := by
      exact_mod_cast Int.toNat_of_nonneg h0
    rw [hcast]
    constructor <;> [linarith; linarith]

/-- Witness for C1 at the spec's regression vector (383640, 398260, 12). -/
theorem C1_identifier_roundtrip_witness :
    ∃ e nn : ℚ,
      decode_hex_identifier (generate_hex_identifier 383640 398260 12) =
        .ok (1, e, nn, 12) ∧
      |e - 383640| ≤ 1/1000 ∧ |nn - 398260| ≤ 1/1000 :=
  C1_identifier_roundtrip 383640 398260 12 (by norm_num) (by norm_num)
    (by norm_num) (by norm_num) (by norm_num)


/-- C10: a negative easting saturates its scaled field to 0 in the
identifier (zero bytes on the wire) and decodes back to 0.0 without an
error; symmetrically for a negative northing. -/
theorem C10_negative_axis_saturates (x y : ℚ) (z : ℕ) (hz : z < 256) :
    (x < 0 → ((rawIdentifierBytes x y z).drop 1).take 8 =
        List.replicate 8 0 ∧
      ∃ nn, decode_hex_identifier (generate_hex_identifier x y z) =
        .ok (1, 0, nn, z)) ∧
    (y < 0 → ((rawIdentifierBytes x y z).drop 9).take 8 =
        List.replicate 8 0 ∧
      ∃ e, decode_hex_identifier (generate_hex_identifier x y z) =
        .ok (1, e, 0, z)) := by
  constructor
  · intro hx
    have h1 : rustRound (x * (SCALE_FACTOR : ℚ)) ≤ 0 :=
      rustRound_nonpos (mul_neg_of_neg_of_pos hx (by norm_num [SCALE_FACTOR]))
    constructor
    · rw [rawIdentifierBytes, toU64sat_of_nonpos h1]
      rfl
    · have hd := decode_generate x y z hz
      rw [show ((SCALE_FACTOR : ℕ) : ℚ) = (1000 : ℚ) from by norm_num [SCALE_FACTOR]] at h1
      rw [toU64sat_of_nonpos h1] at hd
      norm_num at hd
      exact ⟨_, hd⟩
  · intro hy
    have h1 : rustRound (y * (SCALE_FACTOR : ℚ)) ≤ 0 :=
      rustRound_nonpos (mul_neg_of_neg_of_pos hy (by norm_num [SCALE_FACTOR]))
    constructor
    · rw [rawIdentifierBytes, toU64sat_of_nonpos h1]
      rfl
    · have hd := decode_generate x y z hz
      rw [show ((SCALE_FACTOR : ℕ) : ℚ) = (1000 : ℚ) from by norm_num [SCALE_FACTOR]] at h1
      rw [toU64sat_of_nonpos h1] at hd
      norm_num at hd
      exact ⟨_, hd⟩

/-- Witness for C10 at (-5, 3) and (3, -5), zoom 2. -/
theorem C10_negative_axis_saturates_witness :
    (((rawIdentifierBytes (-5) 3 2).drop 1).take 8 = List.replicate 8 0 ∧
      ∃ nn, decode_hex_identifier (generate_hex_identifier (-5) 3 2) =
        .ok (1, 0, nn, 2)) ∧
    (((rawIdentifierBytes 3 (-5) 2).drop 9).take 8 = List.replicate 8 0 ∧
      ∃ e, decode_hex_identifier (generate_hex_identifier 3 (-5) 2) =
        .ok (1, e, 0, 2)) :=
  ⟨(C10_negative_axis_saturates (-5) 3 2 (by norm_num)).1 (by norm_num),
   (C10_negative_axis_saturates 3 (-5) 2 (by norm_num)).2 (by norm_num)⟩

/-- C5: the decoder's error taxonomy and check order — Base64DecodeError on
malformed base64; InvalidIdentifierLength when the decoded length is not
19; InvalidChecksum when the wrapping sum of bytes 0..18 differs from byte
18 (checked before the version, so it fires even for a wrong version
byte); UnsupportedVersion(v) when the checksum passes but the version byte
v (byte 0) is not 1; success otherwise; and flipping any single bit of a
valid identifier's last byte yields InvalidChecksum. -/
theorem C5_decode_error_taxonomy :
    (∀ s, b64decode s = none →
      decode_hex_identifier s = .err .Base64DecodeError) ∧
    (∀ s bs, b64decode s = some bs → bs.length ≠ 19 →
      decode_hex_identifier s = .err .InvalidIdentifierLength) ∧
    (∀ s bs, b64decode s = some bs → bs.length = 19 →
      wrapSum (bs.take 18) ≠ bs.getD 18 0 →
      decode_hex_identifier s = .err .InvalidChecksum) ∧
    (∀ s bs, b64decode s = some bs → bs.length = 19 →
      wrapSum (bs.take 18) = bs.getD 18 0 → (bs.take 18).getD 0 0 ≠ 1 →
      decode_hex_identifier s =
        .err (.UnsupportedVersion ((bs.take 18).getD 0 0))) ∧
    (∀ s bs, b64decode s = some bs → bs.length = 19 →
      wrapSum (bs.take 18) = bs.getD 18 0 → (bs.take 18).getD 0 0 = 1 →
      ∃ e nn : ℚ, ∃ zz : ℕ, decode_hex_identifier s = .ok (1, e, nn, zz)) ∧
    (∀ e nn : ℚ, ∀ z k : ℕ, z < 256 → k < 8 →
      decode_hex_identifier (b64encode (rawIdentifierBytes e nn z ++
        [wrapSum (rawIdentifierBytes e nn z) ^^^ 2 ^ k])) =
        .err .InvalidChecksum) := by
  refine ⟨?_, ?_, ?_, ?_, ?_, ?_⟩
  · intro s h
    rw [decode_hex_identifier.eq_def, h]
  · intro s bs h hlen
    rw [decode_hex_identifier.eq_def, h]
    simp only [if_pos hlen]
  · intro s bs h hlen hchk
    rw [decode_hex_identifier.eq_def, h]
    rw [List.getD_eq_getElem _ _ (by omega)] at hchk
    norm_num [hlen, hchk]
  · intro s bs h hlen hchk hv
    rw [decode_hex_identifier.eq_def, h]
    rw [List.getD_eq_getElem _ _ (by omega)] at hchk
    rw [List.getD_eq_getElem _ _ (by simp [hlen]),
        List.getElem_take] at hv
    norm_num [hlen, hchk, IDENTIFIER_VERSION, hv]
  · intro s bs h hlen hchk hv
    rw [decode_hex_identifier.eq_def, h]
    rw [List.getD_eq_getElem _ _ (by omega)] at hchk
    rw [List.getD_eq_getElem _ _ (by simp [hlen]),
        List.getElem_take] at hv
    norm_num [hlen, hchk, IDENTIFIER_VERSION, hv]
  · intro e nn z k hz hk
    have hws : wrapSum (rawIdentifierBytes e nn z) < 256 := by
      rw [wrapSum_eq]; omega
    have hflip : wrapSum (rawIdentifierBytes e nn z) ^^^ 2 ^ k < 256 := by
      have h2k : 2 ^ k < 2 ^ 8 := Nat.pow_lt_pow_right (by norm_num) hk
      exact Nat.xor_lt_two_pow (n := 8) hws h2k
    have hbytes : ∀ x ∈ rawIdentifierBytes e nn z ++
        [wrapSum (rawIdentifierBytes e nn z) ^^^ 2 ^ k], x < 256 := by
      intro x hx
      rw [List.mem_append] at hx
      rcases hx with hx | hx
      · simp only [rawIdentifierBytes, u64BeBytes, IDENTIFIER_VERSION,
          List.mem_cons, List.mem_append, List.not_mem_nil, or_false] at hx
        rcases hx with h | h | h | h | h | h | h | h | h | h | h | h | h |
          h | h | h | h | h <;> omega
      · simp only [List.mem_singleton] at hx
        omega
    have hne : wrapSum (rawIdentifierBytes e nn z) ≠
        wrapSum (rawIdentifierBytes e nn z) ^^^ 2 ^ k := by
      intro heq
      have h0 : wrapSum (rawIdentifierBytes e nn z) ^^^
          (wrapSum (rawIdentifierBytes e nn z) ^^^ 2 ^ k) = 2 ^ k := by
        rw [← Nat.xor_assoc, Nat.xor_self, Nat.zero_xor]
      rw [← heq, Nat.xor_self] at h0
      have hp : 0 < 2 ^ k := Nat.pos_pow_of_pos k (by norm_num)
      omega
    rw [decode_hex_identifier.eq_def, b64decode_b64encode _ hbytes]
    simp only [rawIdentifierBytes, u64BeBytes, IDENTIFIER_VERSION,
      List.cons_append, List.nil_append, List.length_cons,
      List.length_nil] at hne ⊢
    norm_num at hne ⊢
    exact fun hcontra => absurd hcontra hne

/-- Witness for C5: each error arm and the success arm exercised at a
concrete identifier. -/
theorem C5_decode_error_taxonomy_witness :
    decode_hex_identifier [33] = .err .Base64DecodeError ∧
    decode_hex_identifier (b64encode [1, 2, 3]) =
      .err .InvalidIdentifierLength ∧
    decode_hex_identifier (b64encode
      [1, 0, 0, 0, 0, 0, 0, 0, 0, 0, 0, 0, 0, 0, 0, 0, 0, 9, 99]) =
      .err .InvalidChecksum ∧
    decode_hex_identifier (b64encode
      [2, 0, 0, 0, 0, 0, 0, 0, 0, 0, 0, 0, 0, 0, 0, 0, 0, 5, 7]) =
      .err (.UnsupportedVersion 2) ∧
    (∃ e nn : ℚ, ∃ zz : ℕ, decode_hex_identifier (b64encode
      [1, 0, 0, 0, 0, 0, 0, 0, 0, 0, 0, 0, 0, 0, 0, 0, 0, 5, 6]) =
      .ok (1, e, nn, zz)) ∧
    decode_hex_identifier (b64encode (rawIdentifierBytes 0 0 0 ++
      [wrapSum (rawIdentifierBytes 0 0 0) ^^^ 2 ^ 0])) =
      .err .InvalidChecksum :=
  ⟨C5_decode_error_taxonomy.1 [33] (by decide),
   C5_decode_error_taxonomy.2.1 (b64encode [1, 2, 3]) [1, 2, 3]
     (by decide) (by decide),
   C5_decode_error_taxonomy.2.2.1 _
     [1, 0, 0, 0, 0, 0, 0, 0, 0, 0, 0, 0, 0, 0, 0, 0, 0, 9, 99]
     (by decide) (by decide) (by decide),
   C5_decode_error_taxonomy.2.2.2.1 _
     [2, 0, 0, 0, 0, 0, 0, 0, 0, 0, 0, 0, 0, 0, 0, 0, 0, 5, 7]
     (by decide) (by decide) (by decide) (by decide),
   C5_decode_error_taxonomy.2.2.2.2.1 _
     [1, 0, 0, 0, 0, 0, 0, 0, 0, 0, 0, 0, 0, 0, 0, 0, 0, 5, 6]
     (by decide) (by decide) (by decide) (by decide),
   C5_decode_error_taxonomy.2.2.2.2.2 0 0 0 0 (by norm_num) (by norm_num)⟩


/-! ## Helper lemmas for the coordinate index -/

theorem point_to_hex_ok (x y : ℚ) (z : ℕ) (hz : z ≤ 15)
    (h1 : |specRow y z| ≤ 2 ^ 63 - 1) (h2 : |specCol x y z| ≤ 2 ^ 63 - 1) :
    point_to_hex x y z = .ok (specRow y z, specCol x y z) := by
  simp only [specRow] at h1
  simp only [specCol, specRow] at h2
  simp only [point_to_hex, MAX_ZOOM_LEVEL]
  rw [if_neg (by omega)]
  simp only [specRow, specCol]
  rw [toI64sat_eq_self h1, toI64sat_eq_self h2]

theorem hex_to_point_ok (row col : ℤ) (z : ℕ) (hz : z ≤ 15) :
    hex_to_point row col z = .ok (specCenter row col z) := by
  simp only [hex_to_point, specCenter, MAX_ZOOM_LEVEL]
  rw [if_neg (by omega)]

theorem point_to_hex_err_iff (x y : ℚ) (z : ℕ) :
    point_to_hex x y z = .err (.InvalidZoomLevel z) ↔ 15 < z := by
  constructor
  · intro h
    by_contra h15
    simp [point_to_hex, MAX_ZOOM_LEVEL, h15] at h
  · intro h
    simp [point_to_hex, MAX_ZOOM_LEVEL, h]

theorem hex_to_point_err_iff (row col : ℤ) (z : ℕ) :
    hex_to_point row col z = .err (.InvalidZoomLevel z) ↔ 15 < z := by
  constructor
  · intro h
    by_contra h15
    simp [hex_to_point, MAX_ZOOM_LEVEL, h15] at h
  · intro h
    simp [hex_to_point, MAX_ZOOM_LEVEL, h]

/-- In-extent coordinates index to a row in [0, 1.35e9 + 1] and a column
with absolute value at most 750002, far inside the i64 range. -/
theorem extent_index_bounds (x y : ℚ) (z : ℕ) (hz : z ≤ 15)
    (hx0 : 0 ≤ x) (hx1 : x ≤ 750000) (hy0 : 0 ≤ y) (hy1 : y ≤ 1350000) :
    0 ≤ specRow y z ∧ (specRow y z : ℚ) ≤ 1350000000 + 1/2 ∧
    |specCol x y z| ≤ 750002 := by
  obtain ⟨hw, hm, hr, hdy, hdyw⟩ := zoom_facts z hz
  have hg0 : gridExtent 0 = 0 := rfl
  have hg1 : gridExtent 1 = 0 := rfl
  have hdy0 : (0 : ℚ) < (1.5 : ℚ) * cellRadius z := by linarith
  have hdx1 : (1 : ℚ) ≤ cellWidth z := by
    rw [hw]
    exact_mod_cast hm
  have hqy0 : 0 ≤ (y - gridExtent 1) / ((1.5 : ℚ) * cellRadius z) := by
    rw [hg1, sub_zero]
    positivity
  have hqy1 : (y - gridExtent 1) / ((1.5 : ℚ) * cellRadius z) ≤
      1350000000 := by
    rw [hg1, sub_zero, div_le_iff₀ hdy0]
    nlinarith
  have hrow0 : 0 ≤ specRow y z := by
    rw [specRow]
    exact rustRound_nonneg hqy0
  have hrowq := abs_rustRound_sub_le
    ((y - gridExtent 1) / ((1.5 : ℚ) * cellRadius z))
  rw [abs_le] at hrowq
  have hrowub : (specRow y z : ℚ) ≤ 1350000000 + 1/2 := by
    rw [specRow]
    linarith
  refine ⟨hrow0, hrowub, ?_⟩
  have hqx0 : 0 ≤ (x - gridExtent 0) / cellWidth z := by
    rw [hg0, sub_zero]
    positivity
  have hqx1 : (x - gridExtent 0) / cellWidth z ≤ 750000 := by
    rw [hg0, sub_zero]
    calc x / cellWidth z ≤ x := div_le_self hx0 hdx1
      _ ≤ 750000 := hx1
  have hcolq := abs_rustRound_sub_le
    ((x - gridExtent 0) / cellWidth z - ((rustRem2 (specRow y z)) : ℚ))
  rw [abs_le] at hcolq
  have hrng : ((specCol x y z : ℤ) : ℚ) ≤ 750001 ∧
      (-750001 : ℚ) ≤ ((specCol x y z : ℤ) : ℚ) := by
    rw [specCol]
    rcases rustRem2_mem hrow0 with h2 | h2 <;> rw [h2] at hcolq ⊢ <;>
      push_cast at hcolq ⊢ <;> exact ⟨by linarith, by linarith⟩
  have habs : |((specCol x y z : ℤ) : ℚ)| ≤ 750002 := by
    rw [abs_le]
    exact ⟨by linarith [hrng.2], by linarith [hrng.1]⟩
  rw [← Int.cast_abs] at habs
  exact_mod_cast habs

/-- C3 (amended): for points inside the grid extent, one application of
index-then-center lands within one cell pitch of the input on each axis.
The original claim's second half (iterates never moving further away) is
refuted by the counterexample theorem. -/
theorem C3_single_application_within_pitch (x y : ℚ) (z : ℕ) (hz : z ≤ 15)
    (hx0 : 0 ≤ x) (hx1 : x ≤ 750000) (hy0 : 0 ≤ y) (hy1 : y ≤ 1350000) :
    point_to_hex x y z = .ok (specRow y z, specCol x y z) ∧
    hex_to_point (specRow y z) (specCol x y z) z =
      .ok (specCenter (specRow y z) (specCol x y z) z) ∧
    |(specCenter (specRow y z) (specCol x y z) z).1 - x| ≤ cellWidth z ∧
    |(specCenter (specRow y z) (specCol x y z) z).2 - y| ≤ cellWidth z := by
  obtain ⟨hrow0, hrowub, hcolb⟩ :=
    extent_index_bounds x y z hz hx0 hx1 hy0 hy1
  obtain ⟨hw, hm, hr, hdy, hdyw⟩ := zoom_facts z hz
  have hg0 : gridExtent 0 = 0 := rfl
  have hg1 : gridExtent 1 = 0 := rfl
  have hdx1 : (1 : ℚ) ≤ cellWidth z := by
    rw [hw]
    exact_mod_cast hm
  have hdx0 : (0 : ℚ) < cellWidth z := by linarith
  have hdy0 : (0 : ℚ) < (1.5 : ℚ) * cellRadius z := by linarith
  have h1 : |specRow y z| ≤ 2 ^ 63 - 1 := by
    have hnum : (1350000000 + 1/2 : ℚ) < (9223372036854775807 : ℚ) := by
      norm_num
    have hub : (specRow y z : ℚ) < (9223372036854775807 : ℚ) := by
      linarith
    have hub2 : specRow y z < (9223372036854775807 : ℤ) := by
      exact_mod_cast hub
    rw [abs_le]
    omega
  have h2 : |specCol x y z| ≤ 2 ^ 63 - 1 := by
    have : (750002 : ℤ) ≤ 2 ^ 63 - 1 := by norm_num
    exact le_trans hcolb this
  refine ⟨point_to_hex_ok x y z hz h1 h2, hex_to_point_ok _ _ z hz, ?_, ?_⟩
  · -- easting within one pitch
    have hcolq := abs_rustRound_sub_le
      ((x - gridExtent 0) / cellWidth z - ((rustRem2 (specRow y z)) : ℚ))
    rw [abs_le] at hcolq
    have hC : ((specCol x y z : ℤ) : ℚ) =
        (rustRound ((x - gridExtent 0) / cellWidth z -
          ((rustRem2 (specRow y z)) : ℚ)) : ℚ) := by
      rw [specCol]
    have hxq : (x - gridExtent 0) / cellWidth z * cellWidth z =
        x - gridExtent 0 := div_mul_cancel₀ _ (ne_of_gt hdx0)
    have hkey : (specCenter (specRow y z) (specCol x y z) z).1 - x =
        (((specCol x y z : ℤ) : ℚ) -
          (x - gridExtent 0) / cellWidth z +
          ((rustRem2 (specRow y z)) : ℚ) / 2) * cellWidth z := by
      simp only [specCenter]
      have hexp : (((specCol x y z : ℤ) : ℚ) -
          (x - gridExtent 0) / cellWidth z +
          ((rustRem2 (specRow y z)) : ℚ) / 2) * cellWidth z =
          ((specCol x y z : ℤ) : ℚ) * cellWidth z -
          (x - gridExtent 0) / cellWidth z * cellWidth z +
          ((rustRem2 (specRow y z)) : ℚ) / 2 * cellWidth z := by
        ring
      rw [hexp, hxq]
      ring
    rw [hkey, abs_mul, abs_of_pos hdx0]
    have hA : |((specCol x y z : ℤ) : ℚ) -
        (x - gridExtent 0) / cellWidth z +
        ((rustRem2 (specRow y z)) : ℚ) / 2| ≤ 1 := by
      rcases rustRem2_mem hrow0 with h2' | h2' <;> rw [h2'] at hcolq ⊢ <;>
        rw [hC, h2'] <;> push_cast at hcolq ⊢ <;> rw [abs_le] <;>
        exact ⟨by linarith, by linarith⟩
    calc |((specCol x y z : ℤ) : ℚ) -
          (x - gridExtent 0) / cellWidth z +
          ((rustRem2 (specRow y z)) : ℚ) / 2| * cellWidth z
        ≤ 1 * cellWidth z :=
          mul_le_mul_of_nonneg_right hA (le_of_lt hdx0)
      _ = cellWidth z := one_mul _
  · -- northing within one pitch
    have hrowq := abs_rustRound_sub_le
      ((y - gridExtent 1) / ((1.5 : ℚ) * cellRadius z))
    rw [abs_le] at hrowq
    have hR : ((specRow y z : ℤ) : ℚ) =
        (rustRound ((y - gridExtent 1) /
          ((1.5 : ℚ) * cellRadius z)) : ℚ) := by
      rw [specRow]
    have hyq : (y - gridExtent 1) / ((1.5 : ℚ) * cellRadius z) *
        ((1.5 : ℚ) * cellRadius z) = y - gridExtent 1 :=
      div_mul_cancel₀ _ (ne_of_gt hdy0)
    have hkey : (specCenter (specRow y z) (specCol x y z) z).2 - y =
        (((specRow y z : ℤ) : ℚ) -
          (y - gridExtent 1) / ((1.5 : ℚ) * cellRadius z)) *
          ((1.5 : ℚ) * cellRadius z) := by
      simp only [specCenter]
      have hexp : (((specRow y z : ℤ) : ℚ) -
          (y - gridExtent 1) / ((1.5 : ℚ) * cellRadius z)) *
          ((1.5 : ℚ) * cellRadius z) =
          ((specRow y z : ℤ) : ℚ) * ((1.5 : ℚ) * cellRadius z) -
          (y - gridExtent 1) / ((1.5 : ℚ) * cellRadius z) *
          ((1.5 : ℚ) * cellRadius z) := by
        ring
      rw [hexp, hyq]
      ring
    rw [hkey, abs_mul, abs_of_pos hdy0]
    have hA : |((specRow y z : ℤ) : ℚ) -
        (y - gridExtent 1) / ((1.5 : ℚ) * cellRadius z)| ≤ 1/2 := by
      rw [hR, abs_le]
      exact ⟨hrowq.1, hrowq.2⟩
    calc |((specRow y z : ℤ) : ℚ) -
          (y - gridExtent 1) / ((1.5 : ℚ) * cellRadius z)| *
          ((1.5 : ℚ) * cellRadius z)
        ≤ 1/2 * ((1.5 : ℚ) * cellRadius z) :=
          mul_le_mul_of_nonneg_right hA (le_of_lt hdy0)
      _ ≤ cellWidth z := by linarith

/-! ## Concrete knife-edge evaluations at zoom 10

The center of cell (1, 0) at zoom 10 is (65, 112.583302491977025): its
x-offset is exactly half a pitch, so `(qx - 1).round()` lands on the
-0.5 tie and rounds away from zero to column -1 instead of 0. -/

theorem specRow_dy10 : specRow 112.583302491977025 10 = 1 := by
  rw [specRow]
  apply rustRound_of_nonneg <;>
    norm_num [gridExtent, GRID_EXTENTS, cellRadius, CELL_RADIUS]

theorem rustRem2_one : rustRem2 (1 : ℤ) = 1 := by decide

theorem specCol_edge : specCol 65.001 112.583302491977025 10 = 0 := by
  rw [specCol, specRow_dy10, rustRem2_one]
  have h := rustRound_of_neg (q := (65.001 - gridExtent 0) / cellWidth 10 -
      ((1 : ℤ) : ℚ)) (n := 0)
    (by norm_num [gridExtent, GRID_EXTENTS, cellWidth, CELL_WIDTHS])
    (by norm_num [gridExtent, GRID_EXTENTS, cellWidth, CELL_WIDTHS])
    (by norm_num [gridExtent, GRID_EXTENTS, cellWidth, CELL_WIDTHS])
  simpa using h

theorem p2h_edge : point_to_hex 65.001 112.583302491977025 10 =
    .ok (1, 0) := by
  have h := point_to_hex_ok 65.001 112.583302491977025 10 (by norm_num)
    (by rw [specRow_dy10]; norm_num) (by rw [specCol_edge]; norm_num)
  rw [specRow_dy10, specCol_edge] at h
  exact h

theorem center_10_edge : specCenter 1 0 10 =
    ((65 : ℚ), (112.583302491977025 : ℚ)) := by
  simp only [specCenter, rustRem2_one]
  norm_num [gridExtent, GRID_EXTENTS, cellWidth, CELL_WIDTHS,
    cellRadius, CELL_RADIUS]

theorem h2p_edge : hex_to_point 1 0 10 =
    .ok (65, 112.583302491977025) := by
  rw [hex_to_point_ok 1 0 10 (by norm_num), center_10_edge]

theorem specCol_center : specCol 65 112.583302491977025 10 = -1 := by
  rw [specCol, specRow_dy10, rustRem2_one]
  exact rustRound_of_neg
    (by norm_num [gridExtent, GRID_EXTENTS, cellWidth, CELL_WIDTHS])
    (by norm_num [gridExtent, GRID_EXTENTS, cellWidth, CELL_WIDTHS])
    (by norm_num [gridExtent, GRID_EXTENTS, cellWidth, CELL_WIDTHS])

theorem p2h_center : point_to_hex 65 112.583302491977025 10 =
    .ok (1, -1) := by
  have h := point_to_hex_ok 65 112.583302491977025 10 (by norm_num)
    (by rw [specRow_dy10]; norm_num) (by rw [specCol_center]; norm_num)
  rw [specRow_dy10, specCol_center] at h
  exact h

theorem center_10_m1 : specCenter 1 (-1) 10 =
    ((-65 : ℚ), (112.583302491977025 : ℚ)) := by
  simp only [specCenter, rustRem2_one]
  norm_num [gridExtent, GRID_EXTENTS, cellWidth, CELL_WIDTHS,
    cellRadius, CELL_RADIUS]

theorem h2p_m1 : hex_to_point 1 (-1) 10 =
    .ok (-65, 112.583302491977025) := by
  rw [hex_to_point_ok 1 (-1) 10 (by norm_num), center_10_m1]

/-- C3 counterexample: at p = (65.001, 112.583302491977025), zoom 10, one
index-then-center application moves p by 0.001 in x; a second application
moves the result to x = -65, which is 130.001 from p — further than the
first application and more than one cell pitch. -/
theorem C3_iteration_counterexample :
    point_to_hex 65.001 112.583302491977025 10 = .ok (1, 0) ∧
    hex_to_point 1 0 10 = .ok (65, 112.583302491977025) ∧
    point_to_hex 65 112.583302491977025 10 = .ok (1, -1) ∧
    hex_to_point 1 (-1) 10 = .ok (-65, 112.583302491977025) ∧
    |(65 : ℚ) - 65.001| = 1/1000 ∧
    |(-65 : ℚ) - 65.001| = 130001/1000 ∧
    (1/1000 : ℚ) < 130001/1000 ∧ cellWidth 10 < 130001/1000 := by
  refine ⟨p2h_edge, h2p_edge, p2h_center, h2p_m1, ?_, ?_, by norm_num, ?_⟩
  · rw [abs_of_nonpos (by norm_num)]
    norm_num
  · rw [abs_of_nonpos (by norm_num)]
    norm_num
  · norm_num [cellWidth, CELL_WIDTHS]

set_option maxHeartbeats 1000000 in
/-- C2 (amended): a synthesized cell stores (row, col) together with the
center `hex_to_point row col z`.  For every such cell with its center
inside the grid extent, decoding its identifier re-indexes to exactly
(row, col) - unless the row is odd and col ≤ 0, where the decoded center
sits exactly on the -1/2 rounding tie and the recovered column is
col - 1.  Cells rebuilt by from_hex_id always re-index to their own
(row, col). -/
theorem C2_reindex_dichotomy :
    (∀ row col : ℤ, ∀ z : ℕ, z ≤ 15 →
      0 ≤ (specCenter row col z).1 → (specCenter row col z).1 ≤ 750000 →
      0 ≤ (specCenter row col z).2 → (specCenter row col z).2 ≤ 1350000 →
      ∃ e n : ℚ,
        decode_hex_identifier (generate_identifier
          (specCenter row col z).1 (specCenter row col z).2 z) =
          .ok (1, e, n, z) ∧
        point_to_hex e n z =
          .ok (row, if rustRem2 row = 1 ∧ col ≤ 0 then col - 1 else col)) ∧
    (∀ id : List ℕ, ∀ cell : HexCell, HexCell.from_hex_id id = .ok cell →
      point_to_hex cell.center.1 cell.center.2 cell.zoom_level =
        .ok (cell.row, cell.col)) := by
  constructor
  · intro row col z hz hx0 hx1 hy0 hy1
    obtain ⟨hw, hm, hr, hdy, hdyw⟩ := zoom_facts z hz
    have hg0 : gridExtent 0 = 0 := rfl
    have hg1 : gridExtent 1 = 0 := rfl
    have hdy0 : (0 : ℚ) < (1.5 : ℚ) * cellRadius z := by linarith
    have hm0 : (0 : ℚ) < (cellWidthNat z : ℚ) := by exact_mod_cast hm
    have hcx : (specCenter row col z).1 =
        (col : ℚ) * (cellWidthNat z : ℚ) +
        (rustRem2 row : ℚ) * ((cellWidthNat z : ℚ) / 2) := by
      simp only [specCenter, hg0, zero_add, hw]
    have hcy : (specCenter row col z).2 =
        (row : ℚ) * ((1.5 : ℚ) * cellRadius z) := by
      simp only [specCenter, hg1, zero_add]
    -- the row is nonnegative since the center's northing is
    have hrow0 : 0 ≤ row := by
      by_contra hneg
      push_neg at hneg
      have h1 : ((row : ℤ) : ℚ) < 0 := by exact_mod_cast hneg
      nlinarith [hy0, hcy]
    have hrem := rustRem2_mem hrow0
    -- the column is in [0, 750000]
    have hrem01 : (0 : ℚ) ≤ (rustRem2 row : ℚ) ∧ (rustRem2 row : ℚ) ≤ 1 := by
      rcases hrem with h | h <;> rw [h] <;> norm_num
    have hcol0 : 0 ≤ col := by
      by_contra hneg
      push_neg at hneg
      have h1 : ((col : ℤ) : ℚ) ≤ -1 := by
        exact_mod_cast (by omega : col ≤ -1)
      have h2 : (col : ℚ) * (cellWidthNat z : ℚ) ≤
          -1 * (cellWidthNat z : ℚ) :=
        mul_le_mul_of_nonneg_right h1 (le_of_lt hm0)
      have h3 : (rustRem2 row : ℚ) * ((cellWidthNat z : ℚ) / 2) ≤
          1 * ((cellWidthNat z : ℚ) / 2) :=
        mul_le_mul_of_nonneg_right hrem01.2 (by linarith)
      rw [hcx] at hx0
      linarith
    have hcolub : (col : ℚ) ≤ 750000 := by
      have hc0 : (0 : ℚ) ≤ (col : ℚ) := by exact_mod_cast hcol0
      have h2 : (col : ℚ) * 1 ≤ (col : ℚ) * (cellWidthNat z : ℚ) :=
        mul_le_mul_of_nonneg_left (by exact_mod_cast hm) hc0
      have h3 : (0 : ℚ) ≤ (rustRem2 row : ℚ) * ((cellWidthNat z : ℚ) / 2) :=
        mul_nonneg hrem01.1 (by linarith)
      rw [hcx] at hx1
      linarith
    -- the easting decodes exactly: 1000 * cx is the integer k
    have hk : ((1000 * col * (cellWidthNat z : ℤ) +
        rustRem2 row * 500 * (cellWidthNat z : ℤ) : ℤ) : ℚ) =
        (specCenter row col z).1 * 1000 := by
      rw [hcx]
      push_cast
      ring
    have hre : rustRound ((specCenter row col z).1 * 1000) =
        1000 * col * (cellWidthNat z : ℤ) +
        rustRem2 row * 500 * (cellWidthNat z : ℤ) := by
      rw [← hk, rustRound_intCast]
    have hk0 : (0 : ℤ) ≤ 1000 * col * (cellWidthNat z : ℤ) +
        rustRem2 row * 500 * (cellWidthNat z : ℤ) := by
      have h0 : (0 : ℚ) ≤ (specCenter row col z).1 * 1000 := by linarith
      rw [← hk] at h0
      exact_mod_cast h0
    have hkub : 1000 * col * (cellWidthNat z : ℤ) +
        rustRem2 row * 500 * (cellWidthNat z : ℤ) ≤ 2 ^ 64 - 1 := by
      have h1 : (specCenter row col z).1 * 1000 ≤ 750000000 := by linarith
      have h2 : ((1000 * col * (cellWidthNat z : ℤ) +
          rustRem2 row * 500 * (cellWidthNat z : ℤ) : ℤ) : ℚ) ≤
          750000000 := by rw [hk]; exact h1
      have h3 : 1000 * col * (cellWidthNat z : ℤ) +
          rustRem2 row * 500 * (cellWidthNat z : ℤ) ≤ 750000000 := by
        exact_mod_cast h2
      omega
    -- the northing decodes within 1/2000
    have hnn0 : (0 : ℤ) ≤ rustRound ((specCenter row col z).2 * 1000) :=
      rustRound_nonneg (by linarith)
    have hnnq := abs_rustRound_sub_le ((specCenter row col z).2 * 1000)
    rw [abs_le] at hnnq
    have hnnub : rustRound ((specCenter row col z).2 * 1000) ≤
        2 ^ 64 - 1 := by
      have h1 : (rustRound ((specCenter row col z).2 * 1000) : ℚ) ≤
          1350000001 := by linarith [hnnq.2]
      have h2 : rustRound ((specCenter row col z).2 * 1000) ≤
          (1350000001 : ℤ) := by exact_mod_cast h1
      omega
    have hz256 : z < 256 := by omega
    have hd := decode_generate (specCenter row col z).1
      (specCenter row col z).2 z hz256
    rw [hre, toU64sat_eq hk0 hkub,
        toU64sat_eq hnn0 hnnub] at hd
    -- name the decoded coordinates
    set K : ℤ := 1000 * col * (cellWidthNat z : ℤ) +
        rustRem2 row * 500 * (cellWidthNat z : ℤ) with hK
    set U : ℤ := rustRound ((specCenter row col z).2 * 1000) with hU
    have hKcast : ((K.toNat : ℕ) : ℚ) = (K : ℚ) := by
      exact_mod_cast Int.toNat_of_nonneg hk0
    have hUcast : ((U.toNat : ℕ) : ℚ) = (U : ℚ) := by
      exact_mod_cast Int.toNat_of_nonneg hnn0
    refine ⟨(K.toNat : ℚ) / 1000, (U.toNat : ℚ) / 1000, hd, ?_⟩
    have he : ((K.toNat : ℕ) : ℚ) / 1000 = (specCenter row col z).1 := by
      rw [hKcast]
      rw [hK]
      push_cast
      rw [hcx]
      ring
    -- re-indexed row is row
    have hnval : ((U.toNat : ℕ) : ℚ) / 1000 =
        (row : ℚ) * ((1.5 : ℚ) * cellRadius z) +
        ((U : ℚ) - (specCenter row col z).2 * 1000) / 1000 := by
      rw [hUcast, hcy]
      ring
    have hrowre : specRow ((U.toNat : ℚ) / 1000) z = row := by
      rw [specRow, hg1, sub_zero]
      have hδ : ((U.toNat : ℚ) / 1000) / ((1.5 : ℚ) * cellRadius z) =
          (row : ℚ) + ((U : ℚ) - (specCenter row col z).2 * 1000) / 1000 /
            ((1.5 : ℚ) * cellRadius z) := by
        rw [hnval, add_div]
        congr 1
        rw [mul_div_assoc, div_self (ne_of_gt hdy0), mul_one]
      rw [hδ]
      apply rustRound_int_add_small
      rw [abs_div, abs_of_pos hdy0, div_lt_iff₀ hdy0]
      have habs : |((U : ℚ) - (specCenter row col z).2 * 1000) / 1000| ≤
          1/2000 := by
        rw [abs_div]
        rw [abs_of_pos (show (0:ℚ) < 1000 from by norm_num)]
        rw [div_le_iff₀ (show (0:ℚ) < 1000 from by norm_num)]
        have := hnnq.1
        have := hnnq.2
        rw [abs_le]
        constructor <;> linarith
      linarith [habs, hdy]
    -- re-indexed column
    have hqx : ((K.toNat : ℚ) / 1000 - gridExtent 0) / cellWidth z =
        (col : ℚ) + (rustRem2 row : ℚ) / 2 := by
      rw [he, hg0, sub_zero, hcx, hw]
      field_simp
      ring
    have hcolre : specCol ((K.toNat : ℚ) / 1000) ((U.toNat : ℚ) / 1000) z =
        if rustRem2 row = 1 ∧ col ≤ 0 then col - 1 else col := by
      rw [specCol, hrowre, hqx]
      rcases hrem with h2 | h2 <;> rw [h2]
      · have harg : (col : ℚ) + ((0:ℤ):ℚ) / 2 - ((0:ℤ):ℚ) = (col : ℚ) := by
          push_cast
          ring
        rw [harg, rustRound_intCast]
        simp
      · have harg : (col : ℚ) + ((1:ℤ):ℚ) / 2 - ((1:ℤ):ℚ) =
            (col : ℚ) - 1/2 := by
          push_cast
          ring
        rw [harg, rustRound_int_sub_half]
        rcases le_or_lt col 0 with hc | hc
        · rw [if_neg (by omega), if_pos ⟨rfl, hc⟩]
        · rw [if_pos (by omega), if_neg (by
            rintro ⟨-, hcc⟩
            omega)]
    -- saturation bounds and assembly
    have hrb : |specRow ((U.toNat : ℚ) / 1000) z| ≤ 2 ^ 63 - 1 := by
      rw [hrowre]
      have hrdy : (row : ℚ) * (1/1000) ≤ (row : ℚ) *
          ((1.5 : ℚ) * cellRadius z) := by
        apply mul_le_mul_of_nonneg_left (le_of_lt hdy)
        exact_mod_cast hrow0
      have hyr : (row : ℚ) * ((1.5 : ℚ) * cellRadius z) ≤ 1350000 := by
        rw [← hcy]
        exact hy1
      have h1 : (row : ℚ) ≤ 1350000000 := by linarith
      
      have h2 : row ≤ (1350000000 : ℤ) := by exact_mod_cast h1
      rw [abs_le]
      omega
    have hcb : |specCol ((K.toNat : ℚ) / 1000) ((U.toNat : ℚ) / 1000) z| ≤
        2 ^ 63 - 1 := by
      rw [hcolre]
      have h2 : col ≤ (750000 : ℤ) := by exact_mod_cast hcolub
      split <;> (rw [abs_le]; omega)
    have hp := point_to_hex_ok ((K.toNat : ℚ) / 1000)
      ((U.toNat : ℚ) / 1000) z hz hrb hcb
    rw [hrowre, hcolre] at hp
    exact hp
  · intro id cell h
    rw [HexCell.from_hex_id.eq_def] at h
    rcases hd : decode_hex_identifier id with ⟨v, e, n, zz⟩ | err
    · simp only [hd] at h
      rcases hp : point_to_hex e n zz with ⟨row, col⟩ | err2
      · simp only [hp, RustResult.ok.injEq] at h
        rw [← h]
        simpa using hp
      · simp [hp] at h
    · simp [hd] at h

/-- C2 counterexample: the from_bng cell at (65.001, 112.583302491977025),
zoom 10, stores (row, col) = (1, 0) with center (65, 112.583302491977025);
decoding its identifier yields (65, 112.583), and re-indexing that center
gives (1, -1) ≠ (1, 0). -/
theorem C2_reindex_counterexample :
    HexCell.from_bng 65.001 112.583302491977025 10 =
      .ok ⟨generate_identifier 65 112.583302491977025 10,
           (65, 112.583302491977025), 10, 1, 0⟩ ∧
    decode_hex_identifier (generate_identifier 65 112.583302491977025 10) =
      .ok (1, 65, 112.583, 10) ∧
    point_to_hex 65 112.583 10 = .ok (1, -1) ∧
    ((1 : ℤ), (-1 : ℤ)) ≠ ((1 : ℤ), (0 : ℤ)) := by
  refine ⟨?_, ?_, ?_, by decide⟩
  · rw [HexCell.from_bng.eq_def]
    simp only [p2h_edge, h2p_edge]
  · have hd := decode_generate 65 112.583302491977025 10 (by norm_num)
    rw [show rustRound ((65 : ℚ) * 1000) = 65000 from
        rustRound_of_nonneg (by norm_num) (by norm_num) (by norm_num),
        show rustRound ((112.583302491977025 : ℚ) * 1000) = 112583 from
        rustRound_of_nonneg (by norm_num) (by norm_num) (by norm_num)] at hd
    rw [toU64sat_eq (by norm_num) (by norm_num),
        toU64sat_eq (by norm_num) (by norm_num)] at hd
    rw [show ((65000 : ℤ).toNat) = (65000 : ℕ) from rfl,
        show ((112583 : ℤ).toNat) = (112583 : ℕ) from rfl] at hd
    rw [generate_identifier, hd]
    norm_num
  · have hr : specRow 112.583 10 = 1 := by
      rw [specRow]
      apply rustRound_of_nonneg <;>
        norm_num [gridExtent, GRID_EXTENTS, cellRadius, CELL_RADIUS]
    have hc : specCol 65 112.583 10 = -1 := by
      rw [specCol, hr, rustRem2_one]
      exact rustRound_of_neg
        (by norm_num [gridExtent, GRID_EXTENTS, cellWidth, CELL_WIDTHS])
        (by norm_num [gridExtent, GRID_EXTENTS, cellWidth, CELL_WIDTHS])
        (by norm_num [gridExtent, GRID_EXTENTS, cellWidth, CELL_WIDTHS])
    have h := point_to_hex_ok 65 112.583 10 (by norm_num)
      (by rw [hr]; norm_num) (by rw [hc]; norm_num)
    rw [hr, hc] at h
    exact h

/-- Witness for the C2 amended dichotomy at cell (row 2, col 3), zoom 10
(an even row, so the recovered column is exactly 3). -/
theorem C2_reindex_dichotomy_witness :
    ∃ e n : ℚ,
      decode_hex_identifier (generate_identifier
        (specCenter 2 3 10).1 (specCenter 2 3 10).2 10) =
        .ok (1, e, n, 10) ∧
      point_to_hex e n 10 =
        .ok (2, if rustRem2 2 = 1 ∧ (3 : ℤ) ≤ 0 then 3 - 1 else 3) :=
  C2_reindex_dichotomy.1 2 3 10 (by norm_num)
    (by norm_num [specCenter, gridExtent, GRID_EXTENTS, cellWidth,
      CELL_WIDTHS, rustRem2])
    (by norm_num [specCenter, gridExtent, GRID_EXTENTS, cellWidth,
      CELL_WIDTHS, rustRem2])
    (by norm_num [specCenter, gridExtent, GRID_EXTENTS, cellRadius,
      CELL_RADIUS])
    (by norm_num [specCenter, gridExtent, GRID_EXTENTS, cellRadius,
      CELL_RADIUS])

/-- Witness for C3 at the repository's own grid test point
(457996, 339874), zoom 10. -/
theorem C3_single_application_within_pitch_witness :
    point_to_hex 457996 339874 10 =
      .ok (specRow 339874 10, specCol 457996 339874 10) ∧
    hex_to_point (specRow 339874 10) (specCol 457996 339874 10) 10 =
      .ok (specCenter (specRow 339874 10) (specCol 457996 339874 10) 10) ∧
    |(specCenter (specRow 339874 10) (specCol 457996 339874 10) 10).1 -
      457996| ≤ cellWidth 10 ∧
    |(specCenter (specRow 339874 10) (specCol 457996 339874 10) 10).2 -
      339874| ≤ cellWidth 10 :=
  C3_single_application_within_pitch 457996 339874 10 (by norm_num)
    (by norm_num) (by norm_num) (by norm_num) (by norm_num)

/-- C4 (amended): both converters fail with InvalidZoomLevel exactly for
zoom > 15; on valid zooms the spec formulas hold whenever the rounded row
and column fit in the i64 range (outside it the saturating cast pins the
result, see the counterexample); the center formula holds
unconditionally on valid zooms. -/
theorem C4_amended_formulas :
    (∀ x y : ℚ, ∀ z : ℕ,
      (point_to_hex x y z = .err (.InvalidZoomLevel z) ↔ 15 < z)) ∧
    (∀ row col : ℤ, ∀ z : ℕ,
      (hex_to_point row col z = .err (.InvalidZoomLevel z) ↔ 15 < z)) ∧
    (∀ x y : ℚ, ∀ z : ℕ, z ≤ 15 →
      |specRow y z| ≤ 2 ^ 63 - 1 → |specCol x y z| ≤ 2 ^ 63 - 1 →
      point_to_hex x y z = .ok (specRow y z, specCol x y z)) ∧
    (∀ row col : ℤ, ∀ z : ℕ, z ≤ 15 →
      hex_to_point row col z = .ok (specCenter row col z)) :=
  ⟨point_to_hex_err_iff, hex_to_point_err_iff,
   fun x y z hz h1 h2 => point_to_hex_ok x y z hz h1 h2,
   fun row col z hz => hex_to_point_ok row col z hz⟩

/-- C4 counterexample: at (0, 1e20), zoom 15, the rounded row exceeds the
i64 range, the saturating cast pins it to i64::MAX, and the returned row
is not the claim's round formula. -/
theorem C4_saturation_counterexample :
    point_to_hex 0 (10 ^ 20) 15 = .ok (9223372036854775807, -1) ∧
    specRow (10 ^ 20) 15 ≠ 9223372036854775807 := by
  have hdy : (0 : ℚ) < (1.5 : ℚ) * cellRadius 15 := by
    norm_num [cellRadius, CELL_RADIUS]
  have hq : ((2 : ℚ) ^ 63 + 1) ≤
      (((10 : ℚ) ^ 20) - gridExtent 1) / ((1.5 : ℚ) * cellRadius 15) := by
    rw [le_div_iff₀ hdy]
    norm_num [cellRadius, CELL_RADIUS, gridExtent, GRID_EXTENTS]
  have hr := abs_rustRound_sub_le
    ((((10 : ℚ) ^ 20) - gridExtent 1) / ((1.5 : ℚ) * cellRadius 15))
  rw [abs_le] at hr
  have hbig : 2 ^ 63 + 1 ≤ rustRound
      ((((10 : ℚ) ^ 20) - gridExtent 1) / ((1.5 : ℚ) * cellRadius 15)) := by
    have hcast : ((2 : ℚ) ^ 63 + 1/2) ≤ (rustRound
        ((((10 : ℚ) ^ 20) - gridExtent 1) /
          ((1.5 : ℚ) * cellRadius 15)) : ℚ) := by
      linarith
    have h2 : ((2 : ℤ) ^ 63 : ℚ) < (rustRound
        ((((10 : ℚ) ^ 20) - gridExtent 1) /
          ((1.5 : ℚ) * cellRadius 15)) : ℚ) := by
      push_cast
      linarith
    have h63 : (2 : ℤ) ^ 63 < rustRound
        ((((10 : ℚ) ^ 20) - gridExtent 1) /
          ((1.5 : ℚ) * cellRadius 15)) := by exact_mod_cast h2
    omega
  have hrow : toI64sat (rustRound
      ((((10 : ℚ) ^ 20) - gridExtent 1) / ((1.5 : ℚ) * cellRadius 15))) =
      9223372036854775807 := by
    rw [toI64sat, min_eq_left (by omega), max_eq_right (by omega)]
    norm_num
  have hrem : rustRem2 (9223372036854775807 : ℤ) = 1 := by
    rw [rustRem2_of_nonneg (by norm_num)]
    decide
  have harg : ((0 : ℚ) - gridExtent 0) / cellWidth 15 -
      ((rustRem2 (9223372036854775807 : ℤ)) : ℚ) = -1 := by
    rw [hrem]
    norm_num [gridExtent, GRID_EXTENTS, cellWidth, CELL_WIDTHS]
  have hcol : toI64sat (rustRound (((0 : ℚ) - gridExtent 0) / cellWidth 15 -
      ((rustRem2 (9223372036854775807 : ℤ)) : ℚ))) = -1 := by
    rw [harg]
    have hm1 : rustRound ((-1 : ℚ)) = -(1 : ℤ) :=
      rustRound_of_neg (by norm_num) (by norm_num) (by norm_num)
    rw [hm1, toI64sat]
    decide
  constructor
  · simp only [point_to_hex, MAX_ZOOM_LEVEL]
    rw [if_neg (by norm_num), hrow, hcol]
  · simp only [specRow]
    omega

/-- Witness for the C4 amended formulas at (457996, 339874), zoom 10
(the repository's own grid test point). -/
theorem C4_amended_formulas_witness :
    point_to_hex 457996 339874 10 = .ok (3019, 3522) ∧
    hex_to_point 3 5 10 = .ok (specCenter 3 5 10) := by
  have hrowv : specRow 339874 10 = 3019 := by
    rw [specRow]
    apply rustRound_of_nonneg <;>
      norm_num [gridExtent, GRID_EXTENTS, cellRadius, CELL_RADIUS]
  have hremv : rustRem2 (3019 : ℤ) = 1 := by
    rw [rustRem2_of_nonneg (by norm_num)]
    decide
  have hcolv : specCol 457996 339874 10 = 3522 := by
    rw [specCol, hrowv, hremv]
    apply rustRound_of_nonneg <;>
      norm_num [gridExtent, GRID_EXTENTS, cellWidth, CELL_WIDTHS]
  constructor
  · have h := C4_amended_formulas.2.2.1 457996 339874 10 (by norm_num)
      (by rw [hrowv]; norm_num) (by rw [hcolv]; norm_num)
    rw [hrowv, hcolv] at h
    exact h
  · exact C4_amended_formulas.2.2.2 3 5 10 (by norm_num)


/-- C9: `from_line_string_bng` evaluates `CELL_RADIUS[zoom as usize]`
before any zoom validation, so for zoom 16 the real code panics with an
index-out-of-bounds (modelled as `none`) instead of returning the typed
`Err(InvalidZoomLevel(16))` the claim (and the crate's own error design)
describes. -/
theorem C9_line_string_zoom16_panics :
    from_line_string_bng [(0, 0), (1, 1)] 16 = none ∧
    from_line_string_bng [(0, 0), (1, 1)] 16 ≠
      some (.err (.InvalidZoomLevel 16)) := by
  constructor
  · rw [from_line_string_bng, if_pos (by norm_num [MAX_ZOOM_LEVEL])]
  · rw [from_line_string_bng, if_pos (by norm_num [MAX_ZOOM_LEVEL])]
    exact Option.noConfusion

/-! ## keepFirstBy lemmas (first-occurrence deduplication) -/

theorem mem_map_keepFirstBy {α β : Type} (key : α → β) [DecidableEq β] :
    ∀ (seen : List β) (xs : List α) (b : β),
      (b ∈ (keepFirstBy key seen xs).map key ↔ b ∈ xs.map key ∧ b ∉ seen) := by
  intro seen xs
  induction xs generalizing seen with
  | nil => simp [keepFirstBy]
  | cons x t ih =>
    intro b
    rw [keepFirstBy]
    split
    · next hx =>
      rw [ih]
      simp only [List.map_cons, List.mem_cons]
      constructor
      · rintro ⟨hb, hbs⟩
        exact ⟨Or.inr hb, hbs⟩
      · rintro ⟨hb | hb, hbs⟩
        · subst hb
          exact absurd hx hbs
        · exact ⟨hb, hbs⟩
    · next hx =>
      simp only [List.map_cons, List.mem_cons, ih (key x :: seen)]
      constructor
      · rintro (hb | ⟨hb, hbs⟩)
        · subst hb
          exact ⟨Or.inl rfl, hx⟩
        · exact ⟨Or.inr hb, fun hs => hbs (Or.inr hs)⟩
      · rintro ⟨hb | hb, hbs⟩
        · exact Or.inl hb
        · by_cases hbx : b = key x
          · exact Or.inl hbx
          · exact Or.inr ⟨hb, by simp [hbx, hbs]⟩

/-- C8: building a grid from a multipolygon made of two copies of the same
polygon yields exactly the id set of the single-polygon grid — the
per-sub-polygon results are concatenated and deduplicated by id keeping
the first occurrence.  The geometric intersection predicate is abstract,
so this holds for any filter. -/
theorem C8_duplicate_polygon_same_id_set
    (keep : HexCell → Polygon → Bool) (polygon : Polygon) (z : ℕ) :
    ∀ i : List ℕ,
      (i ∈ ((HexGrid.from_bng_multipolygon keep [polygon, polygon] z).cells.map
        HexCell.id) ↔
      i ∈ ((HexGrid.from_bng_polygon keep polygon z).cells.map
        HexCell.id)) := by
  intro i
  rw [HexGrid.from_bng_multipolygon]
  rw [mem_map_keepFirstBy]
  simp [List.flatMap]

theorem point_to_hex_eq_pointToCellD (x y : ℚ) (z : ℕ) (hz : z ≤ 15) :
    point_to_hex x y z = .ok (pointToCellD (x, y) z) := by
  simp only [pointToCellD]
  rcases h : point_to_hex x y z with rc | e
  · rfl
  · exfalso
    rw [point_to_hex, if_neg (by simp only [MAX_ZOOM_LEVEL]; omega)] at h
    exact RustResult.noConfusion h

theorem hex_to_point_eq_cellToPointD (rc : ℤ × ℤ) (z : ℕ) (hz : z ≤ 15) :
    hex_to_point rc.1 rc.2 z = .ok (cellToPointD rc z) := by
  simp only [cellToPointD]
  rcases h : hex_to_point rc.1 rc.2 z with c | e
  · rfl
  · exfalso
    rw [hex_to_point, if_neg (by simp only [MAX_ZOOM_LEVEL]; omega)] at h
    exact RustResult.noConfusion h

/-- C6: bulk extent generation equals the spec's description — index the
four bbox corners, enumerate the min/max row/col rectangle row-major,
compute centers via cellToPoint, drop centers below the origin on either
axis, synthesize the rest — and any zoom above 15 yields the empty grid
rather than an error.  The model is sequential because rayon's indexed
parallel collect preserves the enumeration order. -/
theorem C6_extent_generation :
    (∀ min_x min_y max_x max_y : ℚ, ∀ z : ℕ, 15 < z →
      generate_cells_for_extent min_x min_y max_x max_y z = []) ∧
    (∀ min_x min_y max_x max_y : ℚ, ∀ z : ℕ,
      generate_cells_for_extent min_x min_y max_x max_y z =
        specCellsForExtent min_x min_y max_x max_y z) := by
  have hmain : ∀ min_x min_y max_x max_y : ℚ, ∀ z : ℕ,
      generate_cells_for_extent min_x min_y max_x max_y z =
        specCellsForExtent min_x min_y max_x max_y z := by
    intro a b c d z
    by_cases hz : 15 < z
    · rw [generate_cells_for_extent,
          if_pos (by simpa [MAX_ZOOM_LEVEL] using hz),
          specCellsForExtent, if_pos hz]
    · push_neg at hz
      rw [generate_cells_for_extent,
          if_neg (by simp only [MAX_ZOOM_LEVEL]; omega),
          specCellsForExtent, if_neg (by omega)]
      simp only [point_to_hex_eq_pointToCellD a b z hz,
        point_to_hex_eq_pointToCellD c b z hz,
        point_to_hex_eq_pointToCellD c d z hz,
        point_to_hex_eq_pointToCellD a d z hz]
      congr 1
      funext rc
      rw [hex_to_point_eq_cellToPointD rc z hz]
      rfl
  refine ⟨?_, hmain⟩
  intro a b c d z hz
  rw [hmain, specCellsForExtent, if_pos hz]

/-- Witness for C6: zoom 16 gives the empty grid, and the refinement
instance at the repository's test extent. -/
theorem C6_extent_generation_witness :
    generate_cells_for_extent 457000 339500 458000 340500 16 = [] ∧
    generate_cells_for_extent 457000 339500 458000 340500 10 =
      specCellsForExtent 457000 339500 458000 340500 10 :=
  ⟨C6_extent_generation.1 457000 339500 458000 340500 16 (by norm_num),
   C6_extent_generation.2 457000 339500 458000 340500 10⟩

/-- `ceilSqrt q` is the unique `n` with `(n-1)^2 < q ≤ n^2` (for
`0 < q`), i.e. the ceiling of the square root. -/
theorem ceilSqrt_eq {q : ℚ} {n : ℕ} (h0 : 0 < q) (h1 : q ≤ (n : ℚ) ^ 2)
    (h2 : ((n : ℚ) - 1) ^ 2 < q) : ceilSqrt q = n := by
  rw [ceilSqrt, if_neg (not_le.2 h0)]
  have hceil0 : (0 : ℤ) ≤ ⌈q⌉ := Int.ceil_nonneg (le_of_lt h0)
  have hcq : q ≤ ((⌈q⌉.toNat : ℕ) : ℚ) := by
    have h := Int.le_ceil q
    have hc : ((⌈q⌉.toNat : ℕ) : ℚ) = ((⌈q⌉ : ℤ) : ℚ) := by
      exact_mod_cast Int.toNat_of_nonneg hceil0
    rw [hc]
    exact_mod_cast h
  have hcub : ((⌈q⌉.toNat : ℕ) : ℚ) < q + 1 := by
    have h := Int.ceil_lt_add_one q
    have hc : ((⌈q⌉.toNat : ℕ) : ℚ) = ((⌈q⌉ : ℤ) : ℚ) := by
      exact_mod_cast Int.toNat_of_nonneg hceil0
    rw [hc]
    exact_mod_cast h
  have hsq : (Nat.sqrt ⌈q⌉.toNat) ^ 2 ≤ ⌈q⌉.toNat := Nat.sqrt_le' _
  have hlt : ⌈q⌉.toNat < (Nat.sqrt ⌈q⌉.toNat + 1) ^ 2 := Nat.lt_succ_sqrt' _
  have hsqQ : ((Nat.sqrt ⌈q⌉.toNat : ℕ) : ℚ) ^ 2 ≤ ((⌈q⌉.toNat : ℕ) : ℚ) := by
    exact_mod_cast hsq
  have hltQ : ((⌈q⌉.toNat : ℕ) : ℚ) <
      (((Nat.sqrt ⌈q⌉.toNat : ℕ) : ℚ) + 1) ^ 2 := by
    exact_mod_cast hlt
  have hn1 : 1 ≤ n := by
    by_contra hn
    push_neg at hn
    interval_cases n
    simp at h1
    linarith
  have hnQ : (1 : ℚ) ≤ (n : ℚ) := by exact_mod_cast hn1
  dsimp only
  split
  · next hle =>
    -- q ≤ s0^2 : the answer is s0, and s0 = n by uniqueness
    by_contra hne
    rcases Nat.lt_or_ge (Nat.sqrt ⌈q⌉.toNat) n with hlt2 | hge
    · have hs : ((Nat.sqrt ⌈q⌉.toNat : ℕ) : ℚ) ≤ (n : ℚ) - 1 := by
        have : (Nat.sqrt ⌈q⌉.toNat : ℕ) ≤ n - 1 := by omega
        have h4 : ((Nat.sqrt ⌈q⌉.toNat : ℕ) : ℚ) ≤ ((n - 1 : ℕ) : ℚ) := by
          exact_mod_cast this
        have h5 : ((n - 1 : ℕ) : ℚ) = (n : ℚ) - 1 := by
          have : (1 : ℕ) ≤ n := hn1
          push_cast [Nat.cast_sub this]
          ring
        linarith
      have hsq0 : (0 : ℚ) ≤ ((Nat.sqrt ⌈q⌉.toNat : ℕ) : ℚ) := by positivity
      have : ((Nat.sqrt ⌈q⌉.toNat : ℕ) : ℚ) ^ 2 ≤ ((n : ℚ) - 1) ^ 2 := by
        apply pow_le_pow_left₀ hsq0 hs
      linarith
    · have hgt : n < Nat.sqrt ⌈q⌉.toNat := by omega
      have hs : (n : ℚ) ≤ ((Nat.sqrt ⌈q⌉.toNat : ℕ) : ℚ) - 1 := by
        have : n ≤ Nat.sqrt ⌈q⌉.toNat - 1 := by omega
        have h4 : ((n : ℕ) : ℚ) ≤ ((Nat.sqrt ⌈q⌉.toNat - 1 : ℕ) : ℚ) := by
          exact_mod_cast this
        have h5 : ((Nat.sqrt ⌈q⌉.toNat - 1 : ℕ) : ℚ) =
            ((Nat.sqrt ⌈q⌉.toNat : ℕ) : ℚ) - 1 := by
          have h6 : (1 : ℕ) ≤ Nat.sqrt ⌈q⌉.toNat := by omega
          push_cast [Nat.cast_sub h6]
          ring
        linarith
      -- (s0 - 1)^2 < q since s0^2 - 1 < q
      have hq2 : ((Nat.sqrt ⌈q⌉.toNat : ℕ) : ℚ) ^ 2 - 1 < q := by linarith
      have hn0 : (0 : ℚ) ≤ (n : ℚ) := by positivity
      have h7 : (n : ℚ) ^ 2 ≤ (((Nat.sqrt ⌈q⌉.toNat : ℕ) : ℚ) - 1) ^ 2 := by
        apply pow_le_pow_left₀ hn0 hs
      have hs1 : (1 : ℚ) ≤ ((Nat.sqrt ⌈q⌉.toNat : ℕ) : ℚ) := by linarith
      nlinarith
  · next hgt =>
    push_neg at hgt
    -- s0^2 < q : the answer is s0 + 1, and s0 + 1 = n by uniqueness
    by_contra hne
    rcases Nat.lt_or_ge (Nat.sqrt ⌈q⌉.toNat + 1) n with hlt2 | hge
    · have hs : ((Nat.sqrt ⌈q⌉.toNat : ℕ) : ℚ) + 1 ≤ (n : ℚ) - 1 := by
        have : Nat.sqrt ⌈q⌉.toNat + 1 ≤ n - 1 := by omega
        have h4 : (((Nat.sqrt ⌈q⌉.toNat + 1 : ℕ)) : ℚ) ≤ ((n - 1 : ℕ) : ℚ) := by
          exact_mod_cast this
        have h5 : ((n - 1 : ℕ) : ℚ) = (n : ℚ) - 1 := by
          push_cast [Nat.cast_sub hn1]
          ring
        push_cast at h4
        linarith
      have hsq0 : (0 : ℚ) ≤ ((Nat.sqrt ⌈q⌉.toNat : ℕ) : ℚ) + 1 := by positivity
      have h7 : (((Nat.sqrt ⌈q⌉.toNat : ℕ) : ℚ) + 1) ^ 2 ≤ ((n : ℚ) - 1) ^ 2 :=
        pow_le_pow_left₀ hsq0 hs _
      linarith
    · have hgt2 : n < Nat.sqrt ⌈q⌉.toNat + 1 := by omega
      have hs : (n : ℚ) ≤ ((Nat.sqrt ⌈q⌉.toNat : ℕ) : ℚ) := by
        exact_mod_cast Nat.lt_succ_iff.mp hgt2
      have hn0 : (0 : ℚ) ≤ (n : ℚ) := by positivity
      have h7 : (n : ℚ) ^ 2 ≤ ((Nat.sqrt ⌈q⌉.toNat : ℕ) : ℚ) ^ 2 :=
        pow_le_pow_left₀ hn0 hs _
      linarith

/-! ## Line-coverage loop characterization -/

theorem keepFirst_cons_mem {α : Type} [DecidableEq α] (seen : List α)
    (k : α) (ks : List α) (h : k ∈ seen) :
    keepFirstBy (fun x => x) seen (k :: ks) =
      keepFirstBy (fun x => x) seen ks := by
  rw [keepFirstBy, if_pos h]

theorem keepFirst_cons_not_mem {α : Type} [DecidableEq α] (seen : List α)
    (k : α) (ks : List α) (h : k ∉ seen) :
    keepFirstBy (fun x => x) seen (k :: ks) =
      k :: keepFirstBy (fun x => x) (k :: seen) ks := by
  rw [keepFirstBy, if_neg h]

theorem lineCellLoop_spec (z : ℕ) (hz : z ≤ 15) :
    ∀ (ps : List (ℚ × ℚ)) (seen : List (ℤ × ℤ)) (cells : List HexCell),
      lineCellLoop z ps seen cells =
        .ok ((keepFirstBy (fun rc => rc) seen
            (ps.map (fun p => pointToCellD p z))).reverse ++ seen,
          cells ++ (keepFirstBy (fun rc => rc) seen
            (ps.map (fun p => pointToCellD p z))).map (specSynthCell z)) := by
  intro ps
  induction ps with
  | nil =>
    intro seen cells
    simp [lineCellLoop, keepFirstBy]
  | cons p t ih =>
    intro seen cells
    rw [lineCellLoop, point_to_hex_eq_pointToCellD p.1 p.2 z hz]
    simp only [Prod.mk.eta, List.map_cons]
    by_cases hmem : pointToCellD p z ∈ seen
    · rw [if_pos hmem, ih seen cells, keepFirst_cons_mem _ _ _ hmem]
    · rw [if_neg hmem]
      simp only [hex_to_point_eq_cellToPointD (pointToCellD p z) z hz, ih,
        keepFirst_cons_not_mem _ _ _ hmem, List.reverse_cons,
        List.append_assoc, List.singleton_append, List.map_cons,
        List.cons_append, List.nil_append, specSynthCell]

theorem keepFirst_id_append {α : Type} [DecidableEq α] :
    ∀ (ks1 : List α) (seen : List α) (ks2 : List α),
      keepFirstBy (fun x => x) seen (ks1 ++ ks2) =
        keepFirstBy (fun x => x) seen ks1 ++
        keepFirstBy (fun x => x)
          ((keepFirstBy (fun x => x) seen ks1).reverse ++ seen) ks2 := by
  intro ks1
  induction ks1 with
  | nil => intro seen ks2; simp [keepFirstBy]
  | cons k t ih =>
    intro seen ks2
    by_cases hk : k ∈ seen
    · rw [List.cons_append, keepFirst_cons_mem _ _ _ hk,
          keepFirst_cons_mem _ _ _ hk, ih]
    · rw [List.cons_append, keepFirst_cons_not_mem _ _ _ hk,
          keepFirst_cons_not_mem _ _ _ hk, ih]
      simp [List.append_assoc]

theorem windowLoop_spec (z : ℕ) (hz : z ≤ 15) (stepSize : ℚ) :
    ∀ (ws : List ((ℚ × ℚ) × (ℚ × ℚ))) (seen : List (ℤ × ℤ))
      (cells : List HexCell),
      windowLoop z stepSize ws seen cells =
        .ok ((keepFirstBy (fun rc => rc) seen
            ((ws.flatMap (fun w =>
              (List.range (segmentSteps w stepSize + 1)).map
                (samplePoint w (segmentSteps w stepSize)))).map
              (fun p => pointToCellD p z))).reverse ++ seen,
          cells ++ (keepFirstBy (fun rc => rc) seen
            ((ws.flatMap (fun w =>
              (List.range (segmentSteps w stepSize + 1)).map
                (samplePoint w (segmentSteps w stepSize)))).map
              (fun p => pointToCellD p z))).map (specSynthCell z)) := by
  intro ws
  induction ws with
  | nil =>
    intro seen cells
    simp [windowLoop, keepFirstBy]
  | cons w t ih =>
    intro seen cells
    rw [windowLoop]
    simp only [lineCellLoop_spec z hz, ih, List.flatMap_cons, List.map_append,
      keepFirst_id_append, List.reverse_append, List.append_assoc,
      List.map_append]

theorem keepFirst_nodup {α : Type} [DecidableEq α] :
    ∀ (ks seen : List α),
      (keepFirstBy (fun x => x) seen ks).Nodup ∧
      ∀ x ∈ keepFirstBy (fun x => x) seen ks, x ∉ seen := by
  intro ks
  induction ks with
  | nil => intro seen; simp [keepFirstBy]
  | cons k t ih =>
    intro seen
    by_cases hk : k ∈ seen
    · rw [keepFirst_cons_mem _ _ _ hk]
      exact ih seen
    · rw [keepFirst_cons_not_mem _ _ _ hk]
      obtain ⟨hnd, hmem⟩ := ih (k :: seen)
      refine ⟨List.nodup_cons.2
        ⟨fun hkk => (hmem k hkk) (List.mem_cons_self _ _), hnd⟩, ?_⟩
      intro x hx
      rcases List.mem_cons.1 hx with rfl | hx2
      · exact hk
      · exact fun hxs => (hmem x hx2) (List.mem_cons_of_mem _ hxs)

theorem rustRem2_zero : rustRem2 (0 : ℤ) = 0 := by decide

theorem pointToCellD_eval {x y : ℚ} {z : ℕ} {r c : ℤ} (hz : z ≤ 15)
    (hr : specRow y z = r) (hc : specCol x y z = c)
    (h1 : |r| ≤ 2 ^ 63 - 1) (h2 : |c| ≤ 2 ^ 63 - 1) :
    pointToCellD (x, y) z = (r, c) := by
  simp only [pointToCellD]
  rw [point_to_hex_ok x y z hz (by rw [hr]; exact h1) (by rw [hc]; exact h2),
      hr, hc]

theorem specRow_zero15 : specRow 0 15 = 0 := by
  rw [specRow]
  have h : ((0 : ℚ) - gridExtent 1) / ((1.5 : ℚ) * cellRadius 15) = 0 := by
    norm_num [gridExtent, GRID_EXTENTS]
  rw [h]
  exact rustRound_of_nonneg le_rfl (by norm_num) (by norm_num)

theorem ptc15 (x : ℚ) {k : ℤ} (h0 : 0 ≤ x)
    (hb1 : (k : ℚ) ≤ x + 1/2) (hb2 : x + 1/2 < (k : ℚ) + 1)
    (hk : |k| ≤ 2 ^ 63 - 1) :
    pointToCellD (x, 0) 15 = (0, k) := by
  have hc : specCol x 0 15 = k := by
    rw [specCol, specRow_zero15, rustRem2_zero]
    have h : (x - gridExtent 0) / cellWidth 15 - ((0 : ℤ) : ℚ) = x := by
      norm_num [gridExtent, GRID_EXTENTS, cellWidth, CELL_WIDTHS]
    rw [h]
    exact rustRound_of_nonneg h0 hb1 hb2
  exact pointToCellD_eval (by norm_num) specRow_zero15 hc (by norm_num) hk

set_option maxHeartbeats 800000 in
/-- C7: for every line string and valid zoom, `from_line_string_bng`
processes each consecutive vertex pair with `step_size = radius * 0.5`
and `steps = ceil(len/step)`, samples `t = i/steps` for `i in 0..=steps`
(`t = 0` when `steps = 0`), indexes each sample and appends one
synthesized cell per first-seen `(row, col)` — i.e. it returns exactly
the spec's deduplicated, insertion-ordered cell list, and the output's
`(row, col)` addresses are pairwise distinct.  Concretely, the 2-point
line from `(0,0)` to `(2,0)` at zoom 15 (length 2, twice the cell pitch
`CELL_WIDTHS[15] = 1`) yields 3 distinct cells. -/
theorem C7_line_coverage :
    (∀ (line : List (ℚ × ℚ)) (z : ℕ), z ≤ 15 →
        from_line_string_bng line z = some (.ok (specLineCells line z)) ∧
        ((specLineCells line z).map (fun c => (c.row, c.col))).Nodup) ∧
    cellWidth 15 = 1 ∧
    (specLineCells [((0 : ℚ), (0 : ℚ)), ((2 : ℚ), (0 : ℚ))] 15).length = 3 := by
  refine ⟨fun line z hz => ⟨?_, ?_⟩, by norm_num [cellWidth, CELL_WIDTHS], ?_⟩
  · rw [from_line_string_bng, if_neg (by simp only [MAX_ZOOM_LEVEL]; omega)]
    simp only [windowLoop_spec z hz, List.nil_append]
    rw [specLineCells, specLineSamples]
  · rw [specLineCells, List.map_map]
    rw [show ((fun c : HexCell => (c.row, c.col)) ∘ specSynthCell z) =
        fun rc : ℤ × ℤ => rc from funext fun rc => rfl]
    rw [show (fun rc : ℤ × ℤ => rc) = id from rfl, List.map_id]
    exact (keepFirst_nodup _ _).1
  · have hsteps : segmentSteps (((0 : ℚ), (0 : ℚ)), ((2 : ℚ), (0 : ℚ)))
        (cellRadius 15 * (0.5 : ℚ)) = 7 := by
      have hr : cellRadius 15 = (0.5773502691896258 : ℚ) := rfl
      rw [segmentSteps]
      dsimp only
      apply ceilSqrt_eq <;> rw [hr] <;> norm_num
    have hsamp : specLineSamples [((0 : ℚ), (0 : ℚ)), ((2 : ℚ), (0 : ℚ))] 15 =
        [(0, 0), (2/7, 0), (4/7, 0), (6/7, 0), (8/7, 0), (10/7, 0),
         (12/7, 0), (2, 0)] := by
      rw [specLineSamples]
      rw [show lineWindows [((0 : ℚ), (0 : ℚ)), ((2 : ℚ), (0 : ℚ))] =
          [(((0 : ℚ), (0 : ℚ)), ((2 : ℚ), (0 : ℚ)))] from rfl]
      simp only [List.flatMap_cons, List.flatMap_nil, List.append_nil, hsteps]
      rw [show List.range (7 + 1) = [0, 1, 2, 3, 4, 5, 6, 7] from rfl]
      simp only [List.map_cons, List.map_nil, samplePoint]
      norm_num
    have hkeys : ([(0, 0), (2/7, 0), (4/7, 0), (6/7, 0), (8/7, 0), (10/7, 0),
        (12/7, 0), ((2 : ℚ), (0 : ℚ))]).map (fun p => pointToCellD p 15) =
        [((0 : ℤ), (0 : ℤ)), (0, 0), (0, 1), (0, 1), (0, 1), (0, 1),
         (0, 2), (0, 2)] := by
      simp only [List.map_cons, List.map_nil]
      rw [@ptc15 0 0 le_rfl (by norm_num) (by norm_num) (by norm_num),
          @ptc15 (2/7) 0 (by norm_num) (by norm_num) (by norm_num) (by norm_num),
          @ptc15 (4/7) 1 (by norm_num) (by norm_num) (by norm_num) (by norm_num),
          @ptc15 (6/7) 1 (by norm_num) (by norm_num) (by norm_num) (by norm_num),
          @ptc15 (8/7) 1 (by norm_num) (by norm_num) (by norm_num) (by norm_num),
          @ptc15 (10/7) 1 (by norm_num) (by norm_num) (by norm_num) (by norm_num),
          @ptc15 (12/7) 2 (by norm_num) (by norm_num) (by norm_num) (by norm_num),
          @ptc15 2 2 (by norm_num) (by norm_num) (by norm_num) (by norm_num)]
    rw [specLineCells, hsamp, hkeys]
    rw [show keepFirstBy (fun rc => rc) ([] : List (ℤ × ℤ))
        [((0 : ℤ), (0 : ℤ)), (0, 0), (0, 1), (0, 1), (0, 1), (0, 1),
         (0, 2), (0, 2)] = [(0, 0), (0, 1), (0, 2)] from by decide]
    rfl

theorem C7_line_coverage_witness :
    from_line_string_bng [((0 : ℚ), (0 : ℚ)), ((2 : ℚ), (0 : ℚ))] 15 =
      some (.ok (specLineCells [((0 : ℚ), (0 : ℚ)), ((2 : ℚ), (0 : ℚ))] 15)) ∧
    ((specLineCells [((0 : ℚ), (0 : ℚ)), ((2 : ℚ), (0 : ℚ))] 15).map
      (fun c => (c.row, c.col))).Nodup :=
  C7_line_coverage.1 [((0 : ℚ), (0 : ℚ)), ((2 : ℚ), (0 : ℚ))] 15 (by norm_num)

end N3gb
